import Mathlib

/-!
Shallow embedding of the OpenClaw Budget Manager plugin (TypeScript) in Lean 4,
together with theorems settling the frozen claims about it.

Conventions of the embedding:
* JavaScript numbers that carry money or token counts are modelled as rationals
  (`Rat`); the claims under study are about exact bookkeeping identities, not
  about binary floating-point rounding.
* JavaScript objects used as string-keyed maps (`Record<string, T>`) are
  modelled as association lists `List (String × T)` in insertion order; lookup
  returns the first binding, mirroring the unique-key discipline of JS objects.
* File-system state is made explicit: a function that reads a JSON file takes
  the parsed file contents (`Option` for a missing/corrupt file) as an
  argument, and a function that writes returns the new document.
* `Date` handling is explicit: functions that call `new Date()` take the
  produced timestamp string as an argument, and date *parsing*
  (`new Date(s).getTime()`) is an explicit function argument `parseDate` with
  `none` standing for `NaN`.
-/

/-! ## chain-budget-store.ts — data model -/

/-- A single recorded transaction (`interface Transaction`). -/
structure Transaction where
  provider : String
  model : String
  tokens_in : Rat
  tokens_out : Rat
  cost_usd : Rat
  timestamp : String
  deriving Repr, DecidableEq

/-- Per-provider spend row (`interface ProviderSpend`). -/
structure ProviderSpend where
  spentUsd : Rat
  exhausted : Bool
  deriving Repr, DecidableEq

/-- A recorded provider switch (`interface SwitchRecord`; the `from`, `to` and
`at` fields carry a trailing underscore because they are Lean keywords). -/
structure SwitchRecord where
  from_ : String
  to_ : String
  at_ : String
  reason : String
  deriving Repr, DecidableEq

/-- The chain-budget ledger document (`interface ChainBudgetData`). -/
structure ChainBudgetData where
  date : String
  providers : List (String × ProviderSpend)
  transactions : List Transaction
  activeProvider : String
  switchHistory : List SwitchRecord
  deriving Repr, DecidableEq

/-! ## provider-chain.ts — data model -/

/-- Task-role model slots of a provider (`models` field of `ProviderConfig`). -/
structure ProviderModels where
  default : String
  coding : Option String
  vision : Option String
  deriving Repr, DecidableEq

/-- One provider declaration (`interface ProviderConfig`). -/
structure ProviderConfig where
  id : String
  priority : Int
  maxDailyUsd : Rat
  enabled : Bool
  models : ProviderModels
  deriving Repr, DecidableEq

/-- The chain declaration (`interface ChainConfig`). -/
structure ChainConfig where
  providers : List ProviderConfig
  deriving Repr, DecidableEq

inductive TaskType where
  | general
  | coding
  | vision
  deriving Repr, DecidableEq

/-! ## Association-list helpers (JS `Record<string, T>` access) -/

/-- Embedding of `m[k]` on a JS object modelled as an association list: first binding wins. -/
def alookup {α : Type} (l : List (String × α)) (k : String) : Option α :=
  match l with
  | [] => none
  | (k', v) :: rest => if k' = k then some v else alookup rest k

@[simp] theorem alookup_nil {α : Type} (k : String) : alookup ([] : List (String × α)) k = none := rfl

@[simp] theorem alookup_cons {α : Type} (k' : String) (v : α) (rest : List (String × α)) (k : String) :
    alookup ((k', v) :: rest) k = if k' = k then some v else alookup rest k := rfl

/-! ## chain-budget-store.ts — operations (pure forms) -/

/-- Embedding of `data.providers[providerId]?.spentUsd ?? 0` (`getProviderSpend`). -/
def getProviderSpend (data : ChainBudgetData) (providerId : String) : Rat :=
  ((alookup data.providers providerId).map ProviderSpend.spentUsd).getD 0

/-- JS `Math.max` on two exact rationals (kept explicit so that the kernel can
evaluate it on concrete inputs). -/
def jsMax (a b : Rat) : Rat :=
  if a ≤ b then b else a

/-- Embedding of `Math.max(0, maxUsd - spent)` (`getProviderRemaining`). -/
def getProviderRemaining (data : ChainBudgetData) (providerId : String) (maxUsd : Rat) : Rat :=
  jsMax 0 (maxUsd - getProviderSpend data providerId)

/-- Embedding of `isProviderExhausted`: a `maxUsd == 0` provider is never exhausted;
otherwise exhausted iff remaining `<= 0`. -/
def isProviderExhausted (data : ChainBudgetData) (providerId : String) (maxUsd : Rat) : Bool :=
  if maxUsd = 0 then false
  else decide (getProviderRemaining data providerId maxUsd ≤ 0)

/-- Embedding of `initializeProviderSpends`: one zero row per configured provider. -/
def initializeProviderSpends (chainConfig : ChainConfig) : List (String × ProviderSpend) :=
  chainConfig.providers.map (fun p => (p.id, ⟨0, false⟩))

/-- The body of `ensureProvider` / the `if (!data.providers[providerId])`
pattern: append a zero row when the key is absent. -/
def ensureProviderRow (provs : List (String × ProviderSpend)) (providerId : String) :
    List (String × ProviderSpend) :=
  if (alookup provs providerId).isNone then provs ++ [(providerId, ⟨0, false⟩)] else provs

/-- Embedding of `data.providers[providerId].spentUsd += costUsd` on the first binding. -/
def addToSpend (provs : List (String × ProviderSpend)) (providerId : String) (costUsd : Rat) :
    List (String × ProviderSpend) :=
  match provs with
  | [] => []
  | (k, v) :: rest =>
      if k = providerId then (k, { v with spentUsd := v.spentUsd + costUsd }) :: rest
      else (k, v) :: addToSpend rest providerId costUsd

/-- Embedding of `data.providers[providerId].exhausted = true` on the first binding. -/
def setExhaustedFlag (provs : List (String × ProviderSpend)) (providerId : String) :
    List (String × ProviderSpend) :=
  match provs with
  | [] => []
  | (k, v) :: rest =>
      if k = providerId then (k, { v with exhausted := true }) :: rest
      else (k, v) :: setExhaustedFlag rest providerId

/-- Embedding of `recordProviderTransaction` (pure form: the read-modify-write on the stored
document, with the `new Date().toISOString()` timestamp passed in). -/
def recordProviderTransaction (data : ChainBudgetData) (providerId model : String)
    (tokensIn tokensOut costUsd : Rat) (timestamp : String) : ChainBudgetData :=
  let data := { data with
    transactions := data.transactions ++
      [(⟨providerId, model, tokensIn, tokensOut, costUsd, timestamp⟩ : Transaction)] }
  { data with providers := addToSpend (ensureProviderRow data.providers providerId) providerId costUsd }

/-- Embedding of `markProviderExhausted` (pure form). -/
def markProviderExhausted (data : ChainBudgetData) (providerId : String) : ChainBudgetData :=
  { data with providers := setExhaustedFlag (ensureProviderRow data.providers providerId) providerId }

/-- Embedding of `setActiveProvider` (pure form). -/
def setActiveProvider (data : ChainBudgetData) (providerId : String) : ChainBudgetData :=
  { data with activeProvider := providerId }

/-- Embedding of `recordSwitch` (pure form). -/
def recordSwitch (data : ChainBudgetData) (from_ to_ reason timestamp : String) : ChainBudgetData :=
  { data with
    switchHistory := data.switchHistory ++ [⟨from_, to_, timestamp, reason⟩],
    activeProvider := to_ }

/-- Embedding of `getActiveProvider`. -/
def getActiveProvider (data : ChainBudgetData) : String :=
  data.activeProvider

/-- Embedding of `getTotalSpent`: sum of `spentUsd` over `Object.values(data.providers)`. -/
def getTotalSpent (data : ChainBudgetData) : Rat :=
  (data.providers.map (fun p => p.2.spentUsd)).sum

/-- Embedding of `getLastTransactionTimestamp`. -/
def getLastTransactionTimestamp (data : ChainBudgetData) : Option String :=
  if data.transactions.isEmpty then none
  else (data.transactions.getLast?).map Transaction.timestamp

/-- Embedding of `getExhaustedProviders`: ids of configured providers that are exhausted. -/
def getExhaustedProviders (data : ChainBudgetData) (chainConfig : ChainConfig) : List String :=
  (chainConfig.providers.filter
    (fun p => isProviderExhausted data p.id p.maxDailyUsd)).map ProviderConfig.id

/-- JS `Math.round` on an exact rational: round half up. -/
def jsRound (q : Rat) : Int :=
  ⌊q + 1/2⌋

/-- Embedding of `getProviderStats`. -/
structure ProviderStats where
  spent : Rat
  remaining : Rat
  percent : Int
  exhausted : Bool
  deriving Repr, DecidableEq

def getProviderStats (data : ChainBudgetData) (provider : ProviderConfig) : ProviderStats :=
  let spent := getProviderSpend data provider.id
  let remaining := getProviderRemaining data provider.id provider.maxDailyUsd
  let percent := if 0 < provider.maxDailyUsd then jsRound (remaining / provider.maxDailyUsd * 100) else 100
  let exhausted := isProviderExhausted data provider.id provider.maxDailyUsd
  ⟨spent, remaining, percent, exhausted⟩

/-! ## provider-chain.ts — queries -/

/-- Stable insertion of a provider after every element of no greater priority.
`jsSortByPriority` below models `providers.sort((a, b) => a.priority - b.priority)`:
ECMAScript `Array.prototype.sort` is stable, and every stable
sort-by-priority produces this same list. -/
def insertByPriority (x : ProviderConfig) : List ProviderConfig → List ProviderConfig
  | [] => [x]
  | y :: ys => if y.priority ≤ x.priority then y :: insertByPriority x ys else x :: y :: ys

def jsSortByPriority (l : List ProviderConfig) : List ProviderConfig :=
  l.foldl (fun acc x => insertByPriority x acc) []

/-- Embedding of `getEnabledProviders`: enabled providers, stably sorted by priority. -/
def getEnabledProviders (config : ChainConfig) : List ProviderConfig :=
  jsSortByPriority (config.providers.filter (fun p => p.enabled))

/-- Embedding of `getProviderById` (`find` returns the first match, `?? null` is `none`). -/
def getProviderById (config : ChainConfig) (providerId : String) : Option ProviderConfig :=
  config.providers.find? (fun p => p.id = providerId)

/-- Embedding of `getNextProvider`. -/
def getNextProvider (config : ChainConfig) (currentProviderId : String)
    (exhaustedProviders : List String) : Option ProviderConfig :=
  let enabled := getEnabledProviders config
  let currentPriority := ((enabled.find? (fun p => p.id = currentProviderId)).map
    ProviderConfig.priority).getD 0
  enabled.find? (fun p => currentPriority < p.priority ∧ p.id ∉ exhaustedProviders)

/-- Embedding of `getFirstAvailableProvider`. -/
def getFirstAvailableProvider (config : ChainConfig) (exhaustedProviders : List String) :
    Option ProviderConfig :=
  (getEnabledProviders config).find? (fun p => p.id ∉ exhaustedProviders)

/-- Embedding of `getModelForTask`. -/
def getModelForTask (provider : ProviderConfig) (taskType : TaskType) : String :=
  match taskType with
  | .coding => provider.models.coding.getD provider.models.default
  | .vision => provider.models.vision.getD provider.models.default
  | .general => provider.models.default

/-- JS `String.prototype.includes`: `pat` occurs as a contiguous substring. -/
def listHasSubstr (pat : List Char) : List Char → Bool
  | [] => pat.isEmpty
  | c :: rest => pat.isPrefixOf (c :: rest) || listHasSubstr pat rest

def jsIncludes (s pat : String) : Bool :=
  listHasSubstr pat.toList s.toList

def resolveFullModelId (providerId modelId : String) : String :=
  if jsIncludes modelId "/" then modelId else providerId ++ "/" ++ modelId

/-! ## chain-budget-store.ts — loading and daily reset -/

/-- Embedding of `freshChainBudget` (with the current date string passed in). -/
def freshChainBudget (chainConfig : ChainConfig) (today : String) : ChainBudgetData :=
  let enabledProviders := jsSortByPriority
    (chainConfig.providers.filter (fun p => p.enabled))
  let firstProvider := ((enabledProviders.head?).map ProviderConfig.id).getD "anthropic"
  ⟨today, initializeProviderSpends chainConfig, [], firstProvider, []⟩

/-- The `// Ensure all providers from config exist in spends` loop of
`loadChainBudget`. -/
def ensureConfigProviders (raw : ChainBudgetData) (chainConfig : ChainConfig) : ChainBudgetData :=
  { raw with providers :=
      chainConfig.providers.foldl (fun provs p => ensureProviderRow provs p.id) raw.providers }

/-- Embedding of `loadChainBudget` (pure form: `stored = none` models a missing file). -/
def loadChainBudget (stored : Option ChainBudgetData) (chainConfig : ChainConfig)
    (today : String) : ChainBudgetData :=
  match stored with
  | none => freshChainBudget chainConfig today
  | some raw =>
      if raw.date ≠ today then freshChainBudget chainConfig today
      else ensureConfigProviders raw chainConfig

/-! ## failure-tracker.ts — data model and pure operations -/

/-- Embedding of `interface FailureRecord`. -/
structure FailureRecord where
  consecutiveFailures : Nat
  lastFailureAt : Option String
  deriving Repr, DecidableEq

/-- Embedding of `interface FailureData`. -/
structure FailureData where
  date : String
  providers : List (String × FailureRecord)
  deriving Repr, DecidableEq

/-- Embedding of `loadFailureData` (pure form: stored contents or `none` for a
missing/corrupt file; returns the stored document only when its date is
today). -/
def loadFailureData (stored : Option FailureData) (today : String) : FailureData :=
  match stored with
  | some raw => if raw.date = today then raw else ⟨today, []⟩
  | none => ⟨today, []⟩

/-- Embedding of `shouldSwitchProvider`: count of consecutive failures for the provider has
reached the threshold; `false` when the provider has no record. -/
def shouldSwitchProvider (data : FailureData) (providerId : String) (threshold : Nat := 3) : Bool :=
  match alookup data.providers providerId with
  | none => false
  | some record => decide (threshold ≤ record.consecutiveFailures)

/-! ## budget-gate.ts — checkChainBudget (pure form) -/

inductive ChainAction where
  | allow
  | switch_provider
  | all_exhausted
  deriving Repr, DecidableEq

structure ChainBudgetDecision where
  action : ChainAction
  currentProvider : String
  currentModel : String
  nextProvider : Option String
  nextModel : Option String
  providerRemaining : Rat
  providerPercent : Int
  reason : String
  deriving Repr, DecidableEq

/-- Embedding of `checkChainBudget`, as a function of the (env-overridden) chain config and
the loaded budget document. `taskType` stands for
`detectTaskType(prompt ?? "", messages ?? [])`, whose regex-based prompt
classification only selects which model *name* is reported and never affects
the chosen action or provider. The human-readable `reason` strings are
abbreviated constants (their interpolated figures are not under study). -/
def checkChainBudgetDisabledPath (config : ChainConfig) (budgetData : ChainBudgetData)
    (taskType : TaskType) (activeProviderId : String) : ChainBudgetDecision :=
  let exhausted := getExhaustedProviders budgetData config
  match getFirstAvailableProvider config exhausted with
  | none =>
      ⟨.all_exhausted, activeProviderId, "unknown", none, none, 0, 0,
        "All providers are exhausted or disabled"⟩
  | some firstAvailable =>
      let model := getModelForTask firstAvailable taskType
      ⟨.switch_provider, activeProviderId, "unknown", some firstAvailable.id,
        some (resolveFullModelId firstAvailable.id model),
        firstAvailable.maxDailyUsd, 100, "Current provider is disabled or missing"⟩

def checkChainBudgetEnabledPath (config : ChainConfig) (budgetData : ChainBudgetData)
    (taskType : TaskType) (activeProvider : ProviderConfig) : ChainBudgetDecision :=
  let activeProviderId := getActiveProvider budgetData
  let stats := getProviderStats budgetData activeProvider
  let currentModel := getModelForTask activeProvider taskType
  if stats.exhausted then
    let exhausted := getExhaustedProviders budgetData config
    match getNextProvider config activeProviderId exhausted with
    | none =>
        ⟨.all_exhausted, activeProviderId,
          resolveFullModelId activeProviderId currentModel, none, none, 0, 0,
          "All providers in the chain are exhausted"⟩
    | some nextProvider =>
        let nextModel := getModelForTask nextProvider taskType
        ⟨.switch_provider, activeProviderId,
          resolveFullModelId activeProviderId currentModel,
          some nextProvider.id, some (resolveFullModelId nextProvider.id nextModel),
          stats.remaining, stats.percent, "Provider budget exhausted"⟩
  else
    ⟨.allow, activeProviderId, resolveFullModelId activeProviderId currentModel,
      none, none, stats.remaining, stats.percent, "Provider has budget remaining"⟩

def checkChainBudget (config : ChainConfig) (budgetData : ChainBudgetData)
    (taskType : TaskType) : ChainBudgetDecision :=
  let activeProviderId := getActiveProvider budgetData
  match getProviderById config activeProviderId with
  | none => checkChainBudgetDisabledPath config budgetData taskType activeProviderId
  | some activeProvider =>
      if activeProvider.enabled then
        checkChainBudgetEnabledPath config budgetData taskType activeProvider
      else
        checkChainBudgetDisabledPath config budgetData taskType activeProviderId

/-! ## Conservation of spend (claim C3 machinery) -/

/-- Sum of `spentUsd` over the rows of a provider map. -/
def spendTotal (provs : List (String × ProviderSpend)) : Rat :=
  (provs.map (fun p => p.2.spentUsd)).sum

/-- Spend recorded for one provider id in a provider map (`?.spentUsd ?? 0`). -/
def spendOf (provs : List (String × ProviderSpend)) (pid : String) : Rat :=
  ((alookup provs pid).map ProviderSpend.spentUsd).getD 0

theorem getProviderSpend_eq_spendOf (data : ChainBudgetData) (pid : String) :
    getProviderSpend data pid = spendOf data.providers pid := rfl

theorem getTotalSpent_eq_spendTotal (data : ChainBudgetData) :
    getTotalSpent data = spendTotal data.providers := rfl

/-- Sum of `cost_usd` over the transactions recorded against one provider. -/
def txSum (pid : String) (txs : List Transaction) : Rat :=
  ((txs.filter (fun t => t.provider == pid)).map Transaction.cost_usd).sum

theorem txSum_append_single (pid : String) (txs : List Transaction) (t : Transaction) :
    txSum pid (txs ++ [t]) = txSum pid txs + (if t.provider = pid then t.cost_usd else 0) := by
  simp only [txSum, List.filter_append, List.map_append, List.sum_append,
    List.filter_cons, List.filter_nil]
  by_cases h : t.provider = pid
  · simp [h]
  · simp [h]

theorem alookup_append_single_self {α : Type} (l : List (String × α)) (k : String) (v : α)
    (h : alookup l k = none) : alookup (l ++ [(k, v)]) k = some v := by
  induction l with
  | nil => simp [alookup]
  | cons hd tl ih =>
      obtain ⟨k', w⟩ := hd
      by_cases hk : k' = k
      · simp [alookup, hk] at h
      · simp only [alookup, hk, if_false] at h
        simp [alookup, hk, ih h]

theorem alookup_append_single_other {α : Type} (l : List (String × α)) (k q : String) (v : α)
    (hq : q ≠ k) : alookup (l ++ [(k, v)]) q = alookup l q := by
  have hk : ¬(k = q) := fun hh => hq hh.symm
  induction l with
  | nil => simp [alookup, hk]
  | cons hd tl ih =>
      obtain ⟨k', w⟩ := hd
      by_cases hk : k' = q
      · simp [alookup, hk]
      · simp [alookup, hk, ih]

theorem alookup_ensureProviderRow_self (provs : List (String × ProviderSpend)) (pid : String) :
    alookup (ensureProviderRow provs pid) pid =
      some ((alookup provs pid).getD ⟨0, false⟩) := by
  unfold ensureProviderRow
  cases h : alookup provs pid with
  | some v => simp [h]
  | none => simp [h, alookup_append_single_self provs pid _ h]

theorem alookup_ensureProviderRow_other (provs : List (String × ProviderSpend)) (pid q : String)
    (hq : q ≠ pid) : alookup (ensureProviderRow provs pid) q = alookup provs q := by
  unfold ensureProviderRow
  cases h : alookup provs pid with
  | some v => simp [h]
  | none => simp [h, alookup_append_single_other provs pid q _ hq]

theorem spendTotal_ensureProviderRow (provs : List (String × ProviderSpend)) (pid : String) :
    spendTotal (ensureProviderRow provs pid) = spendTotal provs := by
  unfold ensureProviderRow
  cases h : alookup provs pid with
  | some v => simp [h]
  | none => simp [h, spendTotal]

theorem alookup_addToSpend_self (provs : List (String × ProviderSpend)) (pid : String)
    (c : Rat) (v : ProviderSpend) (h : alookup provs pid = some v) :
    alookup (addToSpend provs pid c) pid = some { v with spentUsd := v.spentUsd + c } := by
  induction provs with
  | nil => simp [alookup] at h
  | cons hd tl ih =>
      obtain ⟨k, w⟩ := hd
      by_cases hk : k = pid
      · simp only [alookup, hk, if_pos] at h
        cases h
        simp [addToSpend, hk, alookup]
      · simp only [alookup, hk, if_false] at h
        simp [addToSpend, hk, alookup, ih h]

theorem alookup_addToSpend_other (provs : List (String × ProviderSpend)) (pid q : String)
    (c : Rat) (hq : q ≠ pid) :
    alookup (addToSpend provs pid c) q = alookup provs q := by
  induction provs with
  | nil => simp [addToSpend]
  | cons hd tl ih =>
      obtain ⟨k, w⟩ := hd
      by_cases hk : k = pid
      · subst hk
        have hkq : ¬(k = q) := fun hh => hq hh.symm
        simp [addToSpend, alookup, hkq]
      · simp only [addToSpend, hk, if_false]
        by_cases hkq : k = q
        · simp [alookup, hkq]
        · simp [alookup, hkq, ih]

theorem spendTotal_addToSpend (provs : List (String × ProviderSpend)) (pid : String)
    (c : Rat) (h : (alookup provs pid).isSome) :
    spendTotal (addToSpend provs pid c) = spendTotal provs + c := by
  induction provs with
  | nil => simp [alookup] at h
  | cons hd tl ih =>
      obtain ⟨k, w⟩ := hd
      by_cases hk : k = pid
      · simp only [addToSpend, hk, if_pos]
        simp only [spendTotal, List.map_cons, List.sum_cons]
        ring
      · simp only [alookup, hk, if_false] at h
        simp only [addToSpend, hk, if_false]
        simp only [spendTotal, List.map_cons, List.sum_cons] at ih ⊢
        rw [ih h]
        ring

theorem alookup_setExhaustedFlag_spentUsd (provs : List (String × ProviderSpend))
    (pid q : String) :
    ((alookup (setExhaustedFlag provs pid) q).map ProviderSpend.spentUsd) =
      ((alookup provs q).map ProviderSpend.spentUsd) := by
  induction provs with
  | nil => simp [setExhaustedFlag]
  | cons hd tl ih =>
      obtain ⟨k, w⟩ := hd
      by_cases hk : k = pid
      · subst hk
        by_cases hkq : k = q
        · simp [setExhaustedFlag, alookup, hkq]
        · simp [setExhaustedFlag, alookup, hkq]
      · simp only [setExhaustedFlag, hk, if_false]
        by_cases hkq : k = q
        · simp [alookup, hkq]
        · simp [alookup, hkq, ih]

theorem spendTotal_setExhaustedFlag (provs : List (String × ProviderSpend)) (pid : String) :
    spendTotal (setExhaustedFlag provs pid) = spendTotal provs := by
  induction provs with
  | nil => simp [setExhaustedFlag]
  | cons hd tl ih =>
      obtain ⟨k, w⟩ := hd
      by_cases hk : k = pid
      · simp [setExhaustedFlag, hk, spendTotal]
      · simp only [setExhaustedFlag, hk, if_false]
        simp only [spendTotal, List.map_cons, List.sum_cons] at ih ⊢
        rw [ih]

/-- One ledger mutation, as performed by the exported store writers
(`recordProviderTransaction`, `markProviderExhausted`, `setActiveProvider`,
`recordSwitch`). -/
inductive ChainOp where
  | record (providerId model : String) (tokensIn tokensOut costUsd : Rat) (timestamp : String)
  | markExhausted (providerId : String)
  | setActive (providerId : String)
  | doSwitch (from_ to_ reason timestamp : String)
  deriving Repr

def applyChainOp (data : ChainBudgetData) : ChainOp → ChainBudgetData
  | .record pid model tin tout c ts => recordProviderTransaction data pid model tin tout c ts
  | .markExhausted pid => markProviderExhausted data pid
  | .setActive pid => setActiveProvider data pid
  | .doSwitch f t r ts => recordSwitch data f t r ts

def applyChainOps (data : ChainBudgetData) (ops : List ChainOp) : ChainBudgetData :=
  ops.foldl applyChainOp data

/-- The conservation invariant of the ledger document. -/
def Conserves (data : ChainBudgetData) : Prop :=
  (∀ pid, getProviderSpend data pid = txSum pid data.transactions) ∧
    getTotalSpent data = (data.transactions.map Transaction.cost_usd).sum

theorem conserves_fresh (chainConfig : ChainConfig) (today : String) :
    Conserves (freshChainBudget chainConfig today) := by
  constructor
  · intro pid
    simp only [getProviderSpend_eq_spendOf, freshChainBudget, txSum, List.filter_nil,
      List.map_nil, List.sum_nil]
    unfold spendOf
    unfold initializeProviderSpends
    induction chainConfig.providers with
    | nil => simp
    | cons hd tl ih =>
        by_cases h : hd.id = pid
        · simp [alookup, h]
        · simp [alookup, h, ih]
  · simp only [getTotalSpent_eq_spendTotal, freshChainBudget, List.map_nil, List.sum_nil]
    unfold spendTotal
    unfold initializeProviderSpends
    induction chainConfig.providers with
    | nil => simp
    | cons hd tl ih => simpa using ih

theorem conserves_step (data : ChainBudgetData) (op : ChainOp) (h : Conserves data) :
    Conserves (applyChainOp data op) := by
  obtain ⟨hspend, htotal⟩ := h
  cases op with
  | record pid model tin tout c ts =>
      constructor
      · intro q
        simp only [applyChainOp, recordProviderTransaction, getProviderSpend_eq_spendOf,
          txSum_append_single]
        by_cases hq : q = pid
        · subst hq
          unfold spendOf
          rw [alookup_addToSpend_self _ _ _ _ (alookup_ensureProviderRow_self _ _)]
          have := hspend q
          rw [getProviderSpend_eq_spendOf] at this
          unfold spendOf at this
          cases hl : alookup data.providers q with
          | none => simp [hl] at this ⊢; rw [← this]
          | some v => simp [hl] at this ⊢; rw [← this]
        · unfold spendOf
          rw [alookup_addToSpend_other _ _ _ _ hq,
            alookup_ensureProviderRow_other _ _ _ hq]
          have := hspend q
          rw [getProviderSpend_eq_spendOf] at this
          unfold spendOf at this
          have hpq : ¬(pid = q) := fun hh => hq hh.symm
          simp [this, hpq]
      · simp only [applyChainOp, recordProviderTransaction, getTotalSpent_eq_spendTotal]
        rw [spendTotal_addToSpend _ _ _ (by rw [alookup_ensureProviderRow_self]; rfl),
          spendTotal_ensureProviderRow]
        rw [getTotalSpent_eq_spendTotal] at htotal
        simp [htotal]
  | markExhausted pid =>
      constructor
      · intro q
        simp only [applyChainOp, markProviderExhausted, getProviderSpend_eq_spendOf]
        unfold spendOf
        rw [alookup_setExhaustedFlag_spentUsd]
        cases hq : decide (q = pid) with
        | true =>
            have hq' : q = pid := of_decide_eq_true hq
            subst hq'
            rw [alookup_ensureProviderRow_self]
            have := hspend q
            rw [getProviderSpend_eq_spendOf] at this
            unfold spendOf at this
            cases hl : alookup data.providers q with
            | none => simp [hl] at this ⊢; exact this
            | some v => simp [hl] at this ⊢; exact this
        | false =>
            have hq' : q ≠ pid := of_decide_eq_false hq
            rw [alookup_ensureProviderRow_other _ _ _ hq']
            exact hspend q
      · simp only [applyChainOp, markProviderExhausted, getTotalSpent_eq_spendTotal]
        rw [spendTotal_setExhaustedFlag, spendTotal_ensureProviderRow]
        exact htotal
  | setActive pid => exact ⟨hspend, htotal⟩
  | doSwitch f t r ts => exact ⟨hspend, htotal⟩

theorem conserves_applyChainOps (data : ChainBudgetData) (ops : List ChainOp)
    (h : Conserves data) : Conserves (applyChainOps data ops) := by
  induction ops generalizing data with
  | nil => exact h
  | cons op rest ih => exact ih _ (conserves_step data op h)

/-! ## Shared concrete instances for witnesses and counterexamples -/

def exProviderA : ProviderConfig :=
  ⟨"alpha", 1, 3, true, ⟨"model-a", none, none⟩⟩

def exProviderB : ProviderConfig :=
  ⟨"beta", 2, 2, true, ⟨"model-b", none, none⟩⟩

def exConfig : ChainConfig := ⟨[exProviderA, exProviderB]⟩

def exData : ChainBudgetData :=
  ⟨"2026-02-01", [("alpha", ⟨1, false⟩), ("beta", ⟨0, false⟩)], [], "alpha", []⟩

def exFailures : FailureData :=
  ⟨"2026-02-01", [("alpha", ⟨3, some "2026-02-01T10:00:00.000Z"⟩)]⟩

/-! ## Claim theorems: C1, C3, C4 -/

/-- C1 (corrected). The original claim says that when the active provider
exists, is enabled, is not budget-exhausted, but its consecutive-failure count
has reached the threshold, `checkChainBudget` returns a switch-provider
decision. In fact `checkChainBudget` never consults the failure tracker: in
every such state it returns an `allow` decision for the active provider, even
while `shouldSwitchProvider` reports `true` for it. -/
theorem checkChainBudget_allow_despite_failures (config : ChainConfig)
    (data : ChainBudgetData) (fdata : FailureData) (taskType : TaskType)
    (threshold : Nat) (p : ProviderConfig)
    (hp : getProviderById config (getActiveProvider data) = some p)
    (hen : p.enabled = true)
    (hnex : isProviderExhausted data p.id p.maxDailyUsd = false)
    (_hfail : shouldSwitchProvider fdata (getActiveProvider data) threshold = true) :
    (checkChainBudget config data taskType).action = .allow ∧
      (checkChainBudget config data taskType).currentProvider = getActiveProvider data := by
  have hstats : (getProviderStats data p).exhausted = false := hnex
  simp only [checkChainBudget, hp, hen, if_true]
  simp [checkChainBudgetEnabledPath, hstats]

/-- C1, counterexample to the claim as stated: a concrete state in which the
active provider `alpha` exists, is enabled, has spent 1 of its 3-dollar daily
budget (not exhausted), and has 3 consecutive failures (threshold 3), yet
`checkChainBudget` returns `allow` — not a switch-provider decision. -/
theorem checkChainBudget_failure_threshold_counterexample :
    getProviderById exConfig (getActiveProvider exData) = some exProviderA ∧
    exProviderA.enabled = true ∧
    isProviderExhausted exData exProviderA.id exProviderA.maxDailyUsd = false ∧
    shouldSwitchProvider exFailures (getActiveProvider exData) 3 = true ∧
    (checkChainBudget exConfig exData .general).action = .allow := by
  refine ⟨rfl, rfl, ?_, by decide, ?_⟩
  · norm_num [isProviderExhausted, getProviderRemaining, getProviderSpend, jsMax,
      exData, exProviderA, alookup]
  · norm_num [checkChainBudget, checkChainBudgetEnabledPath, getProviderById, getActiveProvider,
      getProviderStats, isProviderExhausted, getProviderRemaining, getProviderSpend, jsMax,
      exData, exConfig, exProviderA, exProviderB, alookup, List.find?]

/-- C1, witness for the amended theorem at a concrete input. -/
theorem checkChainBudget_allow_despite_failures_witness :
    (checkChainBudget exConfig exData .general).action = .allow ∧
      (checkChainBudget exConfig exData .general).currentProvider = getActiveProvider exData :=
  checkChainBudget_allow_despite_failures exConfig exData exFailures .general 3 exProviderA
    rfl rfl
    (by norm_num [isProviderExhausted, getProviderRemaining, getProviderSpend, jsMax,
      exData, exProviderA, alookup])
    (by decide)

/-- C3 (confirmed). Starting from a fresh chain-budget document, after any
sequence of `recordProviderTransaction` calls interleaved with
`markProviderExhausted`, `setActiveProvider` and `recordSwitch`, each
stored `spentUsd` of each provider equals the sum of `cost_usd` over the stored
transactions attributed to it, and `getTotalSpent` equals the sum of
`spentUsd` over all providers, which in turn equals the sum of all recorded
transaction costs. -/
theorem chainBudget_conservation (chainConfig : ChainConfig) (today : String)
    (ops : List ChainOp) :
    (∀ pid, getProviderSpend (applyChainOps (freshChainBudget chainConfig today) ops) pid =
        txSum pid (applyChainOps (freshChainBudget chainConfig today) ops).transactions) ∧
    getTotalSpent (applyChainOps (freshChainBudget chainConfig today) ops) =
        spendTotal (applyChainOps (freshChainBudget chainConfig today) ops).providers ∧
    getTotalSpent (applyChainOps (freshChainBudget chainConfig today) ops) =
        ((applyChainOps (freshChainBudget chainConfig today) ops).transactions.map
          Transaction.cost_usd).sum := by
  have h := conserves_applyChainOps (freshChainBudget chainConfig today) ops
    (conserves_fresh chainConfig today)
  exact ⟨h.1, getTotalSpent_eq_spendTotal _, h.2⟩

/-- C4 (confirmed). A provider with `maxDailyUsd == 0` is never reported
exhausted; a provider with `maxDailyUsd > 0` is reported exhausted exactly
when its recorded spend is at least its cap (equality included); and the
reported remaining budget is always non-negative. -/
theorem exhaustion_and_remaining_semantics (data : ChainBudgetData) (pid : String)
    (maxUsd : Rat) :
    (maxUsd = 0 → isProviderExhausted data pid maxUsd = false) ∧
    (0 < maxUsd →
      (isProviderExhausted data pid maxUsd = true ↔ maxUsd ≤ getProviderSpend data pid)) ∧
    0 ≤ getProviderRemaining data pid maxUsd := by
  refine ⟨fun h0 => by simp [isProviderExhausted, h0], fun hpos => ?_, ?_⟩
  · have hne : maxUsd ≠ 0 := ne_of_gt hpos
    unfold isProviderExhausted getProviderRemaining jsMax
    simp only [hne, if_false, decide_eq_true_eq]
    by_cases hle : (0 : Rat) ≤ maxUsd - getProviderSpend data pid
    · simp only [hle, if_true]
      constructor
      · intro h; linarith
      · intro h; linarith
    · simp only [hle, if_false]
      constructor
      · intro _; linarith [not_le.mp hle]
      · intro _; rfl
  · unfold getProviderRemaining jsMax
    by_cases hle : (0 : Rat) ≤ maxUsd - getProviderSpend data pid
    · simp [hle]
    · simp [hle]

/-- C4, witness at a concrete input. -/
theorem exhaustion_and_remaining_semantics_witness :
    (0 : Rat) < 3 ∧
      (isProviderExhausted exData "alpha" 3 = true ↔ (3 : Rat) ≤ getProviderSpend exData "alpha") :=
  ⟨by norm_num, (exhaustion_and_remaining_semantics exData "alpha" 3).2.1 (by norm_num)⟩

/-! ## Sorting lemmas for the enabled-provider list (claim C5 machinery) -/

theorem mem_insertByPriority (x y : ProviderConfig) (l : List ProviderConfig) :
    y ∈ insertByPriority x l ↔ y = x ∨ y ∈ l := by
  induction l with
  | nil => simp [insertByPriority]
  | cons hd tl ih =>
      unfold insertByPriority
      by_cases h : hd.priority ≤ x.priority
      · simp only [h, if_true, List.mem_cons, ih]
        try tauto
      · simp only [h, if_false, List.mem_cons]
        try tauto

theorem pairwise_insertByPriority (x : ProviderConfig) (l : List ProviderConfig)
    (h : l.Pairwise (fun a b => a.priority ≤ b.priority)) :
    (insertByPriority x l).Pairwise (fun a b => a.priority ≤ b.priority) := by
  induction l with
  | nil => simp [insertByPriority]
  | cons hd tl ih =>
      rw [List.pairwise_cons] at h
      obtain ⟨hhd, htl⟩ := h
      unfold insertByPriority
      by_cases hle : hd.priority ≤ x.priority
      · simp only [hle, if_true, List.pairwise_cons]
        refine ⟨?_, ih htl⟩
        intro z hz
        rcases (mem_insertByPriority x z tl).mp hz with hzx | hzt
        · subst hzx; exact hle
        · exact hhd z hzt
      · simp only [hle, if_false, List.pairwise_cons]
        refine ⟨?_, hhd, htl⟩
        intro z hz
        rcases List.mem_cons.mp hz with hzh | hzt
        · subst hzh; omega
        · exact le_trans (by omega) (hhd z hzt)

theorem mem_foldl_insertByPriority (l acc : List ProviderConfig) (y : ProviderConfig) :
    y ∈ l.foldl (fun a x => insertByPriority x a) acc ↔ y ∈ acc ∨ y ∈ l := by
  induction l generalizing acc with
  | nil => simp
  | cons hd tl ih =>
      simp only [List.foldl_cons, ih, mem_insertByPriority, List.mem_cons]
      tauto

theorem pairwise_foldl_insertByPriority (l acc : List ProviderConfig)
    (h : acc.Pairwise (fun a b => a.priority ≤ b.priority)) :
    (l.foldl (fun a x => insertByPriority x a) acc).Pairwise
      (fun a b => a.priority ≤ b.priority) := by
  induction l generalizing acc with
  | nil => exact h
  | cons hd tl ih => exact ih _ (pairwise_insertByPriority hd acc h)

theorem mem_jsSortByPriority (l : List ProviderConfig) (y : ProviderConfig) :
    y ∈ jsSortByPriority l ↔ y ∈ l := by
  unfold jsSortByPriority
  rw [mem_foldl_insertByPriority]
  simp

theorem jsSortByPriority_head_min (l : List ProviderConfig) (h : ProviderConfig)
    (hh : (jsSortByPriority l).head? = some h) :
    ∀ x ∈ l, h.priority ≤ x.priority := by
  intro x hx
  have hp : (jsSortByPriority l).Pairwise (fun a b => a.priority ≤ b.priority) :=
    pairwise_foldl_insertByPriority l [] (by simp)
  have hmem : x ∈ jsSortByPriority l := (mem_jsSortByPriority l x).mpr hx
  cases hsort : jsSortByPriority l with
  | nil => rw [hsort] at hh; simp at hh
  | cons a rest =>
      rw [hsort] at hh hmem hp
      simp only [List.head?_cons, Option.some_inj] at hh
      subst hh
      rw [List.pairwise_cons] at hp
      rcases List.mem_cons.mp hmem with hxa | hxr
      · subst hxa; exact le_refl _
      · exact hp.1 x hxr

theorem jsSortByPriority_head_mem (l : List ProviderConfig) (h : ProviderConfig)
    (hh : (jsSortByPriority l).head? = some h) : h ∈ l := by
  have : h ∈ jsSortByPriority l := by
    cases hsort : jsSortByPriority l with
    | nil => rw [hsort] at hh; simp at hh
    | cons a rest =>
        rw [hsort] at hh
        simp only [List.head?_cons, Option.some_inj] at hh
        subst hh
        simp
  exact (mem_jsSortByPriority l h).mp this

/-! ## Claim theorem: C5 -/

theorem alookup_all_zero (l : List (String × ProviderSpend)) (pid : String)
    (h : ∀ e ∈ l, e.2 = (⟨0, false⟩ : ProviderSpend)) :
    alookup l pid = none ∨ alookup l pid = some ⟨0, false⟩ := by
  induction l with
  | nil => simp [alookup]
  | cons hd tl ih =>
      obtain ⟨k, v⟩ := hd
      have hv : v = (⟨0, false⟩ : ProviderSpend) := h (k, v) (by simp)
      by_cases hk : k = pid
      · right; simp [alookup, hk, hv]
      · have := ih (fun e he => h e (by simp [he]))
        simpa [alookup, hk] using this

/-- C5 (confirmed). When the stored chain-budget document date is not today
and the stored failure document date is not today, the first load of each on
the new day yields: zero spend and a cleared exhausted flag for every
configured provider, no transactions, no switch history, an empty
failure-counter map, and an active provider that is the head of the
enabled-by-priority order — an enabled provider of minimal priority among all
enabled providers. -/
theorem daily_reset_state (storedBudget : ChainBudgetData) (storedFailure : FailureData)
    (chainConfig : ChainConfig) (today : String)
    (hb : storedBudget.date ≠ today) (hf : storedFailure.date ≠ today) :
    (∀ p ∈ chainConfig.providers,
        getProviderSpend (loadChainBudget (some storedBudget) chainConfig today) p.id = 0 ∧
        ((alookup (loadChainBudget (some storedBudget) chainConfig today).providers p.id).map
          ProviderSpend.exhausted).getD false = false) ∧
    (loadChainBudget (some storedBudget) chainConfig today).transactions = [] ∧
    (loadChainBudget (some storedBudget) chainConfig today).switchHistory = [] ∧
    loadFailureData (some storedFailure) today = ⟨today, []⟩ ∧
    (∀ p, (getEnabledProviders chainConfig).head? = some p →
        (loadChainBudget (some storedBudget) chainConfig today).activeProvider = p.id ∧
        p.enabled = true ∧
        ∀ q ∈ chainConfig.providers, q.enabled = true → p.priority ≤ q.priority) := by
  have hload : loadChainBudget (some storedBudget) chainConfig today =
      freshChainBudget chainConfig today := by
    simp [loadChainBudget, hb]
  rw [hload]
  refine ⟨?_, rfl, rfl, ?_, ?_⟩
  · intro p _
    have hz : ∀ e ∈ initializeProviderSpends chainConfig, e.2 = (⟨0, false⟩ : ProviderSpend) := by
      intro e he
      unfold initializeProviderSpends at he
      obtain ⟨q, _, hq⟩ := List.mem_map.mp he
      rw [← hq]
    rcases alookup_all_zero (initializeProviderSpends chainConfig) p.id hz with hn | hs
    · constructor
      · simp [getProviderSpend, freshChainBudget, hn]
      · simp [freshChainBudget, hn]
    · constructor
      · simp [getProviderSpend, freshChainBudget, hs]
      · simp [freshChainBudget, hs]
  · simp [loadFailureData, hf]
  · intro p hp
    have hfirst : (freshChainBudget chainConfig today).activeProvider = p.id := by
      unfold freshChainBudget
      have : (jsSortByPriority (chainConfig.providers.filter (fun p => p.enabled))).head? =
          some p := hp
      simp [this]
    refine ⟨hfirst, ?_, ?_⟩
    · have hmem := jsSortByPriority_head_mem _ _ hp
      exact (List.mem_filter.mp hmem).2
    · intro q hq hqe
      exact jsSortByPriority_head_min _ _ hp q (List.mem_filter.mpr ⟨hq, hqe⟩)

/-- C5, witness at a concrete input: a stored ledger and failure file dated
2026-02-01, loaded on 2026-02-02. -/
theorem daily_reset_state_witness :
    (loadChainBudget (some exData) exConfig "2026-02-02").transactions = [] ∧
    loadFailureData (some exFailures) "2026-02-02" = ⟨"2026-02-02", []⟩ ∧
    (loadChainBudget (some exData) exConfig "2026-02-02").activeProvider = exProviderA.id ∧
    getProviderSpend (loadChainBudget (some exData) exConfig "2026-02-02") exProviderA.id = 0 := by
  have H := daily_reset_state exData exFailures exConfig "2026-02-02"
    (by decide) (by decide)
  have hmem : exProviderA ∈ exConfig.providers := by simp [exConfig]
  have hhead : (getEnabledProviders exConfig).head? = some exProviderA := by
    simp [getEnabledProviders, exConfig, jsSortByPriority, insertByPriority,
      exProviderA, exProviderB]
  exact ⟨H.2.1, H.2.2.2.1, (H.2.2.2.2 exProviderA hhead).1, (H.1 exProviderA hmem).1⟩

/-! ## provider-chain.ts — applyEnvOverrides (claim C2) -/

/-- JS `String.prototype.toUpperCase` (the provider ids under study are
ASCII), written over the character list so that it evaluates by `rfl`. -/
def jsToUpperCase (s : String) : String :=
  String.mk (s.toList.map Char.toUpper)

/-- JS `String.prototype.toLowerCase` (ditto). -/
def jsToLowerCase (s : String) : String :=
  String.mk (s.toList.map Char.toLower)

def digitsToNat (l : List Char) : Nat :=
  l.foldl (fun a c => a * 10 + (c.toNat - 48)) 0

/-- Model of the JS builtin `parseFloat` on ordinary decimal literals: an
optional sign, then digits with an optional fractional part; any trailing
garbage is ignored; a string that does not start (after the sign) with a
digit or a fraction yields `NaN`, modelled as `none`. -/
def jsParseFloat (s : String) : Option Rat :=
  let cs := s.toList
  let signAndRest : Bool × List Char :=
    match cs with
    | '-' :: t => (true, t)
    | '+' :: t => (false, t)
    | t => (false, t)
  let intPart := signAndRest.2.takeWhile Char.isDigit
  let rest := signAndRest.2.dropWhile Char.isDigit
  let fracPart : List Char :=
    match rest with
    | '.' :: t => t.takeWhile Char.isDigit
    | _ => []
  if intPart.isEmpty ∧ fracPart.isEmpty then none
  else
    let mag : Rat :=
      (digitsToNat intPart : Rat) + (digitsToNat fracPart : Rat) / ((10 : Rat) ^ fracPart.length)
    some (if signAndRest.1 then -mag else mag)

/-- The per-provider body of the `applyEnvOverrides` loop. The environment is
an explicit map from variable name to its value (`none` = unset). -/
def applyEnvOverridesProvider (env : String → Option String) (p : ProviderConfig) :
    ProviderConfig :=
  let envKey := jsToUpperCase p.id ++ "_DAILY_BUDGET_USD"
  let p1 :=
    match env envKey with
    | some envValue =>
        match jsParseFloat envValue with
        | some parsed => { p with maxDailyUsd := parsed }
        | none => p
    | none => p
  let enabledKey := jsToUpperCase p1.id ++ "_ENABLED"
  match env enabledKey with
  | some enabledValue => { p1 with enabled := jsToLowerCase enabledValue = "true" }
  | none => p1

/-- Embedding of `applyEnvOverrides` (`structuredClone` then mutation of each provider
is a map over the provider list; the input config is left untouched). -/
def applyEnvOverrides (env : String → Option String) (config : ChainConfig) : ChainConfig :=
  ⟨config.providers.map (applyEnvOverridesProvider env)⟩

/-! ## Claim C2: env-override key formation -/

/-- The hyphenated provider from the repository applyEnvOverrides test. -/
def arkProvider : ProviderConfig :=
  ⟨"bytedance-ark", 0, 3, true, ⟨"doubao-seed-2.0-pro", none, none⟩⟩

/-- Environment holding the override key documented by the spec and asserted
by the repository test: uppercased id with hyphens replaced by underscores. -/
def arkEnvUnderscore : String → Option String :=
  fun k => if k = "BYTEDANCE_ARK_DAILY_BUDGET_USD" then some "7.50" else none

/-- Environment holding the key the code actually consults: uppercased id with
the hyphen kept. -/
def arkEnvHyphen : String → Option String :=
  fun k => if k = "BYTEDANCE-ARK_DAILY_BUDGET_USD" then some "7.50" else none

theorem jsParseFloat_750 : jsParseFloat "7.50" = some (15 / 2 : Rat) := by
  have step : jsParseFloat "7.50" =
      some ((7 : Rat) + (50 : Rat) / (10 : Rat) ^ (2 : Nat)) := rfl
  rw [step]
  norm_num

/-- C2 (code_bug). The claim (with the spec and the repository test
`provider-chain.test.ts - should convert hyphens to underscores for env var
names`) says the override key for provider id `bytedance-ark` is
`BYTEDANCE_ARK_DAILY_BUDGET_USD`. The code forms the key by uppercasing only,
so it consults `BYTEDANCE-ARK_DAILY_BUDGET_USD`: with the documented key set
to `7.50` the override is silently ignored (budget stays 3), while setting
the hyphenated key does change the budget to 7.5. -/
theorem applyEnvOverrides_hyphen_key_bug :
    arkEnvUnderscore "BYTEDANCE_ARK_DAILY_BUDGET_USD" = some "7.50" ∧
    applyEnvOverrides arkEnvUnderscore ⟨[arkProvider]⟩ = ⟨[arkProvider]⟩ ∧
    ((applyEnvOverrides arkEnvHyphen ⟨[arkProvider]⟩).providers.headD arkProvider).maxDailyUsd =
      15 / 2 := by
  refine ⟨rfl, rfl, ?_⟩
  have step : ((applyEnvOverrides arkEnvHyphen ⟨[arkProvider]⟩).providers.headD
      arkProvider).maxDailyUsd = (7 : Rat) + (50 : Rat) / (10 : Rat) ^ (2 : Nat) := rfl
  rw [step]
  norm_num

/-! ## usage-tracker.ts — data model -/

/-- A JS timestamp value as accepted by the aggregator: either epoch
milliseconds (a number) or a date string. -/
inductive JsTime where
  | num (n : Int)
  | str (s : String)
  deriving Repr, DecidableEq

/-- The `usage` object of an assistant message; each field is `some` exactly
when the JS object carries that key with a number value (`cost_total` models
`usage.cost.total`). -/
structure UsageObj where
  input_tokens : Option Rat
  prompt_tokens : Option Rat
  input : Option Rat
  output_tokens : Option Rat
  completion_tokens : Option Rat
  output : Option Rat
  cost_total : Option Rat
  deriving Repr, DecidableEq

/-- One turn message as consumed by `aggregateUsageFromMessages`. -/
structure TurnMessage where
  role : String
  usage : Option UsageObj
  timestamp : Option JsTime
  provider : Option String
  model : Option String
  deriving Repr, DecidableEq

structure ModelCost where
  input : Rat
  output : Rat
  deriving Repr, DecidableEq

structure TokenUsage where
  input_tokens : Rat
  output_tokens : Rat
  deriving Repr, DecidableEq

/-- Embedding of `extractTokens`: first number among `input_tokens`/`prompt_tokens`/`input`
and first among `output_tokens`/`completion_tokens`/`output`; `none` when
either side is missing. -/
def extractTokens (usage : UsageObj) : Option TokenUsage :=
  let inputTokens :=
    match usage.input_tokens with
    | some v => some v
    | none =>
        match usage.prompt_tokens with
        | some v => some v
        | none => usage.input
  let outputTokens :=
    match usage.output_tokens with
    | some v => some v
    | none =>
        match usage.completion_tokens with
        | some v => some v
        | none => usage.output
  match inputTokens, outputTokens with
  | some i, some o => some ⟨i, o⟩
  | _, _ => none

/-- Embedding of `extractPreCalculatedCost`. -/
def extractPreCalculatedCost (usage : UsageObj) : Option Rat :=
  usage.cost_total

structure AggregatedUsage where
  model : String
  input_tokens : Rat
  output_tokens : Rat
  cost : Rat
  deriving Repr, DecidableEq

/-- JS `String.prototype.startsWith`. -/
def jsStartsWith (s pat : String) : Bool :=
  pat.toList.isPrefixOf s.toList

def localPatterns : List String :=
  ["qwen", "llama", "mistral", "codellama", "deepseek-coder",
   "phi", "gemma", "vicuna", "orca", "neural-chat", "starling",
   "openchat", "zephyr", "dolphin", "nous-hermes", "yi:"]

/-- Embedding of `isLocalModel`. -/
def isLocalModel (modelId : String) : Bool :=
  if jsStartsWith modelId "ollama/" then true
  else
    let lowerModel := jsToLowerCase modelId
    localPatterns.any (fun pat => jsIncludes lowerModel pat)

/-- Embedding of `isFreeMessage` (`provider === "ollama"`, or a truthy `model` matching the
local pattern list). -/
def isFreeMessage (msg : TurnMessage) : Bool :=
  if msg.provider = some "ollama" then true
  else
    match msg.model with
    | some m => decide (m ≠ "") && isLocalModel m
    | none => false

/-- Embedding of `calculateCost`. -/
def calculateCost (tokensIn tokensOut : Rat) (cost : ModelCost) : Rat :=
  tokensIn / 1000 * cost.input + tokensOut / 1000 * cost.output

/-- JS truthiness of a timestamp value (`if (!rawTs) continue`): the number 0
and the empty string are falsy. -/
def jsTruthyTime : JsTime → Bool
  | .num n => decide (n ≠ 0)
  | .str s => decide (s ≠ "")

/-- Accumulator of the aggregation loop. -/
structure AggState where
  totalInputTokens : Rat
  totalOutputTokens : Rat
  totalCost : Rat
  resolvedModel : String
  found : Bool
  deriving Repr, DecidableEq

/-- The `if (since) { ... continue }` block of the aggregation loop: `true`
when the message must be skipped under the cutoff. A truthy `since` (present
and non-empty) enables the cutoff; a missing or falsy message timestamp, an
unparsable timestamp, or a timestamp not strictly greater than the cutoff
causes a skip. -/
def sinceSkip (parseDate : String → Option Int) (since : Option String)
    (msg : TurnMessage) : Bool :=
  match since with
  | none => false
  | some s =>
      if s = "" then false
      else
        match msg.timestamp with
        | none => true
        | some rawTs =>
            if jsTruthyTime rawTs = false then true
            else
              let sinceMs := parseDate s
              let msgMs : Option Int :=
                match rawTs with
                | .num n => some n
                | .str t => parseDate t
              match msgMs with
              | none => true
              | some m =>
                  match sinceMs with
                  | none => false
                  | some sm => decide (m ≤ sm)

/-- Body of the `for (const raw of messages)` loop of
`aggregateUsageFromMessages`. `parseDate` models `new Date(x).getTime()` with
`none` for `NaN`. -/
def processMessage (parseDate : String → Option Int) (fallbackModelId : String)
    (fallbackCost : ModelCost) (fallbackIsFree : Bool) (since : Option String)
    (st : AggState) (msg : TurnMessage) : AggState :=
  if msg.role ≠ "assistant" then st
  else
    match msg.usage with
    | none => st
    | some usage =>
      if sinceSkip parseDate since msg then st
      else
        match extractTokens usage with
        | none => st
        | some tokens =>
            let st := { st with
              found := true,
              totalInputTokens := st.totalInputTokens + tokens.input_tokens,
              totalOutputTokens := st.totalOutputTokens + tokens.output_tokens }
            let computed := calculateCost tokens.input_tokens tokens.output_tokens fallbackCost
            let st :=
              if isFreeMessage msg || fallbackIsFree then st
              else
                match extractPreCalculatedCost usage with
                | some preCost =>
                    if 0 < preCost then { st with totalCost := st.totalCost + preCost }
                    else { st with totalCost := st.totalCost + computed }
                | none => { st with totalCost := st.totalCost + computed }
            if st.resolvedModel = fallbackModelId then
              match msg.model with
              | some m =>
                  if m = "" then st
                  else
                    match msg.provider with
                    | some pr =>
                        if pr = "" then { st with resolvedModel := m }
                        else { st with resolvedModel := pr ++ "/" ++ m }
                    | none => { st with resolvedModel := m }
              | none => st
            else st

/-- Embedding of `aggregateUsageFromMessages` (pure form). -/
def aggregateUsageFromMessages (parseDate : String → Option Int)
    (messages : List TurnMessage) (fallbackModelId : String) (fallbackCost : ModelCost)
    (since : Option String) : Option AggregatedUsage :=
  let fallbackIsFree := isLocalModel fallbackModelId
  let final := messages.foldl
    (processMessage parseDate fallbackModelId fallbackCost fallbackIsFree since)
    ⟨0, 0, 0, fallbackModelId, false⟩
  if final.found then
    some ⟨final.resolvedModel, final.totalInputTokens, final.totalOutputTokens, final.totalCost⟩
  else none

/-! ## Claim C8: cutoff correctness of the aggregator -/

/-- The parsed timestamp of a message: the number itself for an epoch-ms
timestamp, the parsed date for a string timestamp. -/
def tsValue (parseDate : String → Option Int) (msg : TurnMessage) : Option Int :=
  match msg.timestamp with
  | none => none
  | some (.num n) => some n
  | some (.str s) => parseDate s

/-- The qualifying condition of the claim: an assistant message with a parsable
usage object whose timestamp is present, parsable, and strictly greater than
the cutoff `T`. -/
def qualifiesForCutoff (parseDate : String → Option Int) (T : Int) (msg : TurnMessage) : Bool :=
  decide (msg.role = "assistant") &&
  (match msg.usage with
   | some u => (extractTokens u).isSome
   | none => false) &&
  (match tsValue parseDate msg with
   | some v => decide (T < v)
   | none => false)

theorem sinceSkip_none_eq_false (parseDate : String → Option Int) (msg : TurnMessage) :
    sinceSkip parseDate none msg = false := rfl

/-- When the message does not qualify under the cutoff but the skip check also
passes it, the only possibility is a timestamp strictly greater than `T`. -/
theorem sinceSkip_false_gives_late_ts (parseDate : String → Option Int) (s : String)
    (T : Int) (msg : TurnMessage)
    (hparse : parseDate s = some T) (hempty : parseDate "" = none)
    (hzero : msg.timestamp ≠ some (JsTime.num 0))
    (hskip : sinceSkip parseDate (some s) msg = false) :
    ∃ v, tsValue parseDate msg = some v ∧ T < v := by
  have hs : ¬(s = "") := by
    intro h
    rw [h, hempty] at hparse
    exact Option.noConfusion hparse
  unfold sinceSkip at hskip
  simp only [hs, if_false] at hskip
  cases hts : msg.timestamp with
  | none => rw [hts] at hskip; simp at hskip
  | some rawTs =>
      rw [hts] at hskip
      cases rawTs with
      | num n =>
          have hn : ¬(n = 0) := by
            intro h; rw [h] at hts; exact hzero hts
          simp only [jsTruthyTime, hn, decide_not] at hskip
          simp only [decide_eq_false_iff_not, not_not, hparse] at hskip
          refine ⟨n, by simp [tsValue, hts], ?_⟩
          by_cases hle : n ≤ T
          · simp [hn, hle] at hskip
          · omega
      | str t =>
          by_cases ht : t = ""
          · subst ht
            simp [jsTruthyTime] at hskip
          · simp only [jsTruthyTime, ht, decide_not] at hskip
            cases hpt : parseDate t with
            | none => simp [ht, hpt] at hskip
            | some v =>
                simp only [ht, hpt, hparse, decide_eq_false_iff_not, not_not,
                  decide_eq_true_eq] at hskip
                refine ⟨v, by simp [tsValue, hts, hpt], ?_⟩
                by_cases hle : v ≤ T
                · simp [hle] at hskip
                · omega

/-- Conversely, a qualifying message is never skipped. -/
theorem sinceSkip_false_of_qualifies (parseDate : String → Option Int) (s : String)
    (T : Int) (msg : TurnMessage)
    (hparse : parseDate s = some T) (hempty : parseDate "" = none)
    (hzero : msg.timestamp ≠ some (JsTime.num 0))
    (hq : qualifiesForCutoff parseDate T msg = true) :
    sinceSkip parseDate (some s) msg = false := by
  have hs : ¬(s = "") := by
    intro h
    rw [h, hempty] at hparse
    exact Option.noConfusion hparse
  have hts := (Bool.and_eq_true _ _ |>.mp hq).2
  unfold sinceSkip
  simp only [hs, if_false]
  cases htts : msg.timestamp with
  | none => simp [tsValue, htts] at hts
  | some rawTs =>
      cases rawTs with
      | num n =>
          have hn : ¬(n = 0) := by
            intro h; rw [h] at htts; exact hzero htts
          simp only [tsValue, htts] at hts
          have hlt : T < n := of_decide_eq_true hts
          simp [jsTruthyTime, hn, hparse, hlt, not_le.mpr hlt]
      | str t =>
          simp only [tsValue, htts] at hts
          cases hpt : parseDate t with
          | none => simp [hpt] at hts
          | some v =>
              rw [hpt] at hts
              have hlt : T < v := of_decide_eq_true hts
              have ht : ¬(t = "") := by
                intro h
                rw [h, hempty] at hpt
                exact Option.noConfusion hpt
              simp [jsTruthyTime, ht, hparse, hpt, not_le.mpr hlt]

/-- A non-qualifying message leaves the accumulator untouched. -/
theorem processMessage_skip (parseDate : String → Option Int) (fb : String)
    (rate : ModelCost) (ff : Bool) (s : String) (T : Int) (st : AggState)
    (msg : TurnMessage)
    (hparse : parseDate s = some T) (hempty : parseDate "" = none)
    (hzero : msg.timestamp ≠ some (JsTime.num 0))
    (hq : qualifiesForCutoff parseDate T msg = false) :
    processMessage parseDate fb rate ff (some s) st msg = st := by
  unfold processMessage
  by_cases hrole : msg.role = "assistant"
  · simp only [hrole, ne_eq, not_true_eq_false, if_false]
    cases hu : msg.usage with
    | none => rfl
    | some usage =>
        by_cases hskip : sinceSkip parseDate (some s) msg = true
        · simp [hskip]
        · have hskipf : sinceSkip parseDate (some s) msg = false :=
            Bool.eq_false_iff.mpr hskip
          obtain ⟨v, hv, hvlt⟩ :=
            sinceSkip_false_gives_late_ts parseDate s T msg hparse hempty hzero hskipf
          cases htk : extractTokens usage with
          | none => simp [hskipf, htk]
          | some tk =>
              exfalso
              have : qualifiesForCutoff parseDate T msg = true := by
                unfold qualifiesForCutoff
                simp [hrole, hu, htk, hv, hvlt]
              rw [this] at hq
              exact Bool.noConfusion hq
  · simp [hrole]

/-- The per-message step depends on `since` only through the skip check. -/
theorem processMessage_congr_skip (parseDate : String → Option Int) (fb : String)
    (rate : ModelCost) (ff : Bool) (s1 s2 : Option String) (st : AggState)
    (msg : TurnMessage)
    (h : sinceSkip parseDate s1 msg = sinceSkip parseDate s2 msg) :
    processMessage parseDate fb rate ff s1 st msg =
      processMessage parseDate fb rate ff s2 st msg := by
  unfold processMessage
  rw [h]

/-- The aggregation loop over all messages under a cutoff equals the loop over
the qualifying messages with no cutoff. -/
theorem foldl_processMessage_filter (parseDate : String → Option Int) (fb : String)
    (rate : ModelCost) (ff : Bool) (s : String) (T : Int)
    (msgs : List TurnMessage)
    (hparse : parseDate s = some T) (hempty : parseDate "" = none)
    (hzero : ∀ m ∈ msgs, m.timestamp ≠ some (JsTime.num 0)) :
    ∀ st, msgs.foldl (processMessage parseDate fb rate ff (some s)) st =
      (msgs.filter (qualifiesForCutoff parseDate T)).foldl
        (processMessage parseDate fb rate ff none) st := by
  induction msgs with
  | nil => intro st; rfl
  | cons m rest ih =>
      intro st
      have hzm : m.timestamp ≠ some (JsTime.num 0) := hzero m (by simp)
      have hzr : ∀ x ∈ rest, x.timestamp ≠ some (JsTime.num 0) :=
        fun x hx => hzero x (by simp [hx])
      cases hq : qualifiesForCutoff parseDate T m with
      | false =>
          simp only [List.foldl_cons, List.filter_cons, hq, if_false]
          rw [processMessage_skip parseDate fb rate ff s T st m hparse hempty hzm hq]
          exact ih hzr st
      | true =>
          simp only [List.foldl_cons, List.filter_cons, hq, if_true]
          rw [processMessage_congr_skip parseDate fb rate ff (some s) none st m
            (by rw [sinceSkip_false_of_qualifies parseDate s T m hparse hempty hzm hq,
              sinceSkip_none_eq_false])]
          exact ih hzr _

/-- The first two conjuncts of the qualifying condition: an assistant message
with extractable tokens. -/
def countedMsg (msg : TurnMessage) : Bool :=
  decide (msg.role = "assistant") &&
  (match msg.usage with
   | some u => (extractTokens u).isSome
   | none => false)

theorem processMessage_found_mono (parseDate : String → Option Int) (fb : String)
    (rate : ModelCost) (ff : Bool) (since : Option String) (st : AggState)
    (msg : TurnMessage) (h : st.found = true) :
    (processMessage parseDate fb rate ff since st msg).found = true := by
  unfold processMessage
  dsimp only
  repeat' split
  all_goals simp_all

theorem processMessage_none_found_of_counted (parseDate : String → Option Int)
    (fb : String) (rate : ModelCost) (ff : Bool) (st : AggState) (msg : TurnMessage)
    (hc : countedMsg msg = true) :
    (processMessage parseDate fb rate ff none st msg).found = true := by
  have hrole : msg.role = "assistant" := of_decide_eq_true (Bool.and_eq_true _ _ |>.mp hc).1
  have husage := (Bool.and_eq_true _ _ |>.mp hc).2
  unfold processMessage
  cases hu : msg.usage with
  | none => simp [hu] at husage
  | some usage =>
      rw [hu] at husage
      have husage' : (extractTokens usage).isSome = true := husage
      cases htk : extractTokens usage with
      | none => rw [htk] at husage'; simp at husage'
      | some tk =>
          simp only [hrole, ne_eq, not_true_eq_false, if_false, sinceSkip_none_eq_false,
            Bool.false_eq_true, htk]
          repeat' split
          all_goals rfl

theorem foldl_processMessage_found_mono (parseDate : String → Option Int) (fb : String)
    (rate : ModelCost) (ff : Bool) (since : Option String) (msgs : List TurnMessage) :
    ∀ st : AggState, st.found = true →
      (msgs.foldl (processMessage parseDate fb rate ff since) st).found = true := by
  induction msgs with
  | nil => intro st h; exact h
  | cons m rest ih =>
      intro st h
      exact ih _ (processMessage_found_mono parseDate fb rate ff since st m h)

theorem aggregate_none_iff_of_all_counted (parseDate : String → Option Int) (fb : String)
    (rate : ModelCost) (msgs : List TurnMessage)
    (h : ∀ m ∈ msgs, countedMsg m = true) :
    (aggregateUsageFromMessages parseDate msgs fb rate none = none ↔ msgs = []) := by
  cases msgs with
  | nil => simp [aggregateUsageFromMessages]
  | cons m rest =>
      simp only [aggregateUsageFromMessages, List.foldl_cons]
      have hfound : ((processMessage parseDate fb rate (isLocalModel fb) none
          ⟨0, 0, 0, fb, false⟩ m)).found = true :=
        processMessage_none_found_of_counted parseDate fb rate (isLocalModel fb) _ m
          (h m (by simp))
      have := foldl_processMessage_found_mono parseDate fb rate (isLocalModel fb) none rest
        _ hfound
      simp [this]

/-- C8 (confirmed). With a parsable, truthy cutoff timestamp `T` (and no
degenerate epoch-0 numeric message timestamps, which JS treats as falsy),
aggregation under the cutoff equals aggregation over exactly the qualifying
messages — the assistant messages with a parsable usage object whose
timestamp is present, parsable and strictly greater than `T` — and the result
is `null` precisely when no message qualifies. -/
theorem aggregate_cutoff_correct (parseDate : String → Option Int)
    (msgs : List TurnMessage) (fb : String) (rate : ModelCost) (s : String) (T : Int)
    (hparse : parseDate s = some T) (hempty : parseDate "" = none)
    (hzero : ∀ m ∈ msgs, m.timestamp ≠ some (JsTime.num 0)) :
    aggregateUsageFromMessages parseDate msgs fb rate (some s) =
      aggregateUsageFromMessages parseDate (msgs.filter (qualifiesForCutoff parseDate T))
        fb rate none ∧
    (aggregateUsageFromMessages parseDate msgs fb rate (some s) = none ↔
      msgs.filter (qualifiesForCutoff parseDate T) = []) := by
  have heq : aggregateUsageFromMessages parseDate msgs fb rate (some s) =
      aggregateUsageFromMessages parseDate (msgs.filter (qualifiesForCutoff parseDate T))
        fb rate none := by
    simp only [aggregateUsageFromMessages]
    rw [foldl_processMessage_filter parseDate fb rate (isLocalModel fb) s T msgs
      hparse hempty hzero]
  refine ⟨heq, ?_⟩
  rw [heq]
  exact aggregate_none_iff_of_all_counted parseDate fb rate _
    (fun m hm => by
      have hq := List.of_mem_filter hm
      unfold qualifiesForCutoff at hq
      unfold countedMsg
      rw [Bool.and_assoc] at hq
      exact (Bool.and_eq_true _ _ |>.mp ((Bool.and_eq_true _ _ |>.mp hq).2)).1 |> fun h2 =>
        by
          have h1 := (Bool.and_eq_true _ _ |>.mp hq).1
          simp [h1, h2])

/-- C8, concrete instances for the witness: a cutoff parsing to 5, one
assistant message stamped later (counts) and one stamped earlier (excluded). -/
def wParseDate : String → Option Int :=
  fun t => if t = "T5" then some 5 else if t = "T9" then some 9 else none

def wMsg1 : TurnMessage :=
  ⟨"assistant", some ⟨some 10, none, none, some 5, none, none, none⟩,
    some (.str "T9"), none, some "m-one"⟩

def wMsg2 : TurnMessage :=
  ⟨"assistant", some ⟨some 7, none, none, some 3, none, none, none⟩,
    some (.num 3), none, none⟩

/-- C8, witness at a concrete input. -/
theorem aggregate_cutoff_correct_witness :
    aggregateUsageFromMessages wParseDate [wMsg1, wMsg2] "fb-model" ⟨0, 0⟩ (some "T5") =
      aggregateUsageFromMessages wParseDate
        ([wMsg1, wMsg2].filter (qualifiesForCutoff wParseDate 5)) "fb-model" ⟨0, 0⟩ none ∧
    (aggregateUsageFromMessages wParseDate [wMsg1, wMsg2] "fb-model" ⟨0, 0⟩ (some "T5") = none ↔
      [wMsg1, wMsg2].filter (qualifiesForCutoff wParseDate 5) = []) :=
  aggregate_cutoff_correct wParseDate [wMsg1, wMsg2] "fb-model" ⟨0, 0⟩ "T5" 5
    rfl rfl (by decide)

/-! ## usage-tracker.ts — provider detection and chain tracking -/

def PROVIDER_ID_LIST : List String :=
  ["anthropic", "moonshot", "deepseek", "google", "openai", "ollama"]

/-- Embedding of `detectProviderFromModel`. -/
def detectProviderFromModel (modelId : String) : String :=
  let byLead : Option String :=
    if jsIncludes modelId "/" then
      let provider := (modelId.splitOn "/").headD ""
      if PROVIDER_ID_LIST.contains provider then some provider else none
    else none
  match byLead with
  | some p => p
  | none =>
      let lowerModel := jsToLowerCase modelId
      if jsIncludes lowerModel "claude" || jsIncludes lowerModel "anthropic" then "anthropic"
      else if jsIncludes lowerModel "kimi" || jsIncludes lowerModel "moonshot" then "moonshot"
      else if jsIncludes lowerModel "deepseek" then "deepseek"
      else if jsIncludes lowerModel "gemini" || jsIncludes lowerModel "google" then "google"
      else if jsIncludes lowerModel "gpt" || jsIncludes lowerModel "openai" then "openai"
      else if jsIncludes lowerModel "qwen" || jsIncludes lowerModel "llama" ||
          jsIncludes lowerModel "ollama" then "ollama"
      else "anthropic"

/-- Embedding of `trackChainUsage` (pure form: the loaded ledger document is an argument,
the store write is the returned document, and the transaction timestamp is
passed in). -/
def trackChainUsage (parseDate : String → Option Int) (budgetData : ChainBudgetData)
    (modelId : String) (messages : List TurnMessage) (cost : ModelCost)
    (timestamp : String) : Option (String × AggregatedUsage × ChainBudgetData) :=
  let since := getLastTransactionTimestamp budgetData
  match aggregateUsageFromMessages parseDate messages modelId cost since with
  | none => none
  | some aggregated =>
      let providerId := detectProviderFromModel aggregated.model
      some (providerId, aggregated,
        recordProviderTransaction budgetData providerId aggregated.model
          aggregated.input_tokens aggregated.output_tokens aggregated.cost timestamp)

/-! ## Claim C10: unrecognised models are attributed to Anthropic -/

/-- The claimed known-provider-tag condition: the model id
contains a slash and its leading segment is one of the known provider ids. -/
def hasKnownProviderTag (modelId : String) : Bool :=
  jsIncludes modelId "/" && PROVIDER_ID_LIST.contains ((modelId.splitOn "/").headD "")

/-- The claimed known-model-pattern condition: the lowercased
model id contains one of the recognised vendor substrings. -/
def hasKnownModelPattern (modelId : String) : Bool :=
  let l := jsToLowerCase modelId
  jsIncludes l "claude" || jsIncludes l "anthropic" || jsIncludes l "kimi" ||
  jsIncludes l "moonshot" || jsIncludes l "deepseek" || jsIncludes l "gemini" ||
  jsIncludes l "google" || jsIncludes l "gpt" || jsIncludes l "openai" ||
  jsIncludes l "qwen" || jsIncludes l "llama" || jsIncludes l "ollama"

theorem detectProviderFromModel_fallback (modelId : String)
    (h1 : hasKnownProviderTag modelId = false)
    (h2 : hasKnownModelPattern modelId = false) :
    detectProviderFromModel modelId = "anthropic" := by
  unfold hasKnownModelPattern at h2
  simp only [Bool.or_eq_false_iff] at h2
  obtain ⟨⟨⟨⟨⟨⟨⟨⟨⟨⟨⟨hclaude, hanth⟩, hkimi⟩, hmoon⟩, hdeep⟩, hgem⟩, hgoog⟩, hgpt⟩,
    hopen⟩, hqwen⟩, hllama⟩, holla⟩ := h2
  unfold detectProviderFromModel
  cases hsl : jsIncludes modelId "/" with
  | false =>
      simp [hsl, hclaude, hanth, hkimi, hmoon, hdeep, hgem, hgoog, hgpt, hopen,
        hqwen, hllama, holla]
  | true =>
      unfold hasKnownProviderTag at h1
      rw [hsl] at h1
      simp only [Bool.true_and] at h1
      have h1' : ¬((modelId.splitOn "/").head?.getD "" ∈ PROVIDER_ID_LIST) := by
        simpa [List.headD_eq_head?_getD] using h1
      simp [hsl, h1', hclaude, hanth, hkimi, hmoon, hdeep, hgem, hgoog, hgpt, hopen,
        hqwen, hllama, holla]

theorem getProviderSpend_record_self (data : ChainBudgetData) (pid model : String)
    (tin tout c : Rat) (ts : String) :
    getProviderSpend (recordProviderTransaction data pid model tin tout c ts) pid =
      getProviderSpend data pid + c := by
  simp only [recordProviderTransaction, getProviderSpend_eq_spendOf]
  unfold spendOf
  rw [alookup_addToSpend_self _ _ _ _ (alookup_ensureProviderRow_self _ _)]
  cases hl : alookup data.providers pid with
  | none => simp [hl]
  | some v => simp [hl]

/-- C10 (confirmed). When chain-mode tracking records a turn whose resolved
model id carries no known provider prefix and matches no known model-name
pattern, the transaction is attributed to the provider `anthropic`: the
returned provider id is `anthropic`, the appended transaction names
`anthropic`, and the recorded Anthropic spend grows by the cost of the turn. -/
theorem trackChainUsage_unknown_model_to_anthropic (parseDate : String → Option Int)
    (data : ChainBudgetData) (modelId : String) (messages : List TurnMessage)
    (cost : ModelCost) (ts : String) (pid : String) (agg : AggregatedUsage)
    (ledger : ChainBudgetData)
    (h : trackChainUsage parseDate data modelId messages cost ts = some (pid, agg, ledger))
    (h1 : hasKnownProviderTag agg.model = false)
    (h2 : hasKnownModelPattern agg.model = false) :
    pid = "anthropic" ∧
    ledger.transactions = data.transactions ++
      [⟨"anthropic", agg.model, agg.input_tokens, agg.output_tokens, agg.cost, ts⟩] ∧
    getProviderSpend ledger "anthropic" = getProviderSpend data "anthropic" + agg.cost := by
  simp only [trackChainUsage] at h
  cases hagg : aggregateUsageFromMessages parseDate messages modelId cost
      (getLastTransactionTimestamp data) with
  | none => rw [hagg] at h; exact Option.noConfusion h
  | some a =>
      rw [hagg] at h
      have h3 := Option.some.inj h
      have hpid : detectProviderFromModel a.model = pid := congrArg Prod.fst h3
      have hrest := congrArg Prod.snd h3
      have haggeq : a = agg := congrArg Prod.fst hrest
      have hled : recordProviderTransaction data (detectProviderFromModel a.model) a.model
          a.input_tokens a.output_tokens a.cost ts = ledger := congrArg Prod.snd hrest
      subst hpid
      subst hled
      subst haggeq
      have hdet : detectProviderFromModel a.model = "anthropic" :=
        detectProviderFromModel_fallback a.model h1 h2
      refine ⟨hdet, ?_, ?_⟩
      · rw [hdet]
        simp [recordProviderTransaction]
      · rw [hdet]
        exact getProviderSpend_record_self data "anthropic" a.model
          a.input_tokens a.output_tokens a.cost ts

/-- C10, concrete instances for the witness. -/
def wwMsg : TurnMessage :=
  ⟨"assistant", some ⟨some 100, none, none, some 50, none, none, none⟩, none, none,
    some "mystery-9000"⟩

def wwData : ChainBudgetData :=
  ⟨"2026-02-01", [], [], "anthropic", []⟩

def wwCost : ModelCost := ⟨0, 0⟩

def wwAgg : AggregatedUsage :=
  ⟨"mystery-9000", 0 + 100, 0 + 50, 0 + calculateCost 100 50 wwCost⟩

def wwLedger : ChainBudgetData :=
  ⟨"2026-02-01",
    [("anthropic", ⟨0 + (0 + calculateCost 100 50 wwCost), false⟩)],
    [⟨"anthropic", "mystery-9000", 0 + 100, 0 + 50, 0 + calculateCost 100 50 wwCost, "t0"⟩],
    "anthropic", []⟩

/-- C10, witness at a concrete input. -/
theorem trackChainUsage_unknown_model_witness :
    trackChainUsage (fun _ => none) wwData "mystery-9000" [wwMsg] wwCost "t0" =
      some ("anthropic", wwAgg, wwLedger) ∧
    wwLedger.transactions = wwData.transactions ++
      [⟨"anthropic", wwAgg.model, wwAgg.input_tokens, wwAgg.output_tokens, wwAgg.cost, "t0"⟩] ∧
    getProviderSpend wwLedger "anthropic" = getProviderSpend wwData "anthropic" + wwAgg.cost := by
  have H := trackChainUsage_unknown_model_to_anthropic (fun _ => none) wwData "mystery-9000"
    [wwMsg] wwCost "t0" "anthropic" wwAgg wwLedger rfl rfl rfl
  exact ⟨rfl, H.2.1, H.2.2⟩

/-! ## context-manager.ts — session truncator data model -/

/-- The `content` of a session message: a plain string, an array of blocks
(the `text` field of each block when it is a string), or any other JSON value. -/
inductive JsContent where
  | str (s : String)
  | blocks (l : List (Option String))
  | other
  deriving Repr, DecidableEq

structure SessionMessage where
  role : String
  content : JsContent
  deriving Repr, DecidableEq

/-- One session-log entry (`interface SessionEntry`; extra JSON fields are
carried through the rewrite unchanged and are not modelled). -/
structure SessionEntry where
  type : String
  id : String
  parentId : Option String
  timestamp : Option String
  message : Option SessionMessage
  deriving Repr, DecidableEq

def blankEntry : SessionEntry := ⟨"", "", none, none, none⟩

def STRUCTURAL_TYPES : List String :=
  ["session", "model_change", "thinking_level_change", "custom", "compaction"]

/-- Embedding of `isStructuralEntry`. -/
def isStructuralEntry (entry : SessionEntry) : Bool :=
  STRUCTURAL_TYPES.contains entry.type

/-- Embedding of `estimateEntryTokens`: 50 for structural entries and entries without a
message; otherwise `max(50, ceil(chars / 4))` over the content length
(`(chars + 3) / 4` is `Math.ceil(chars / 4)` on naturals). -/
def estimateEntryTokens (entry : SessionEntry) : Nat :=
  if isStructuralEntry entry then 50
  else
    match entry.message with
    | none => 50
    | some message =>
        let chars : Nat :=
          match message.content with
          | .str s => s.length
          | .blocks l => (l.map (fun b => match b with | some t => t.length | none => 0)).sum
          | .other => 0
        max 50 ((chars + 3) / 4)

/-- Embedding of `estimateTotalTokens`. -/
def estimateTotalTokens (entries : List SessionEntry) : Nat :=
  (entries.map estimateEntryTokens).sum

structure TruncateConfig where
  maxContextTokens : Nat
  keepRecentMessages : Nat
  deriving Repr, DecidableEq

/-- The index-collecting loop of `truncateSession`
(`for i: if (!isStructuralEntry(entries[i])) contentIndices.push(i)`),
with the running index made explicit. -/
def contentIndicesFrom (i : Nat) : List SessionEntry → List Nat
  | [] => []
  | e :: l =>
      if isStructuralEntry e then contentIndicesFrom (i + 1) l
      else i :: contentIndicesFrom (i + 1) l

/-- The keep-loop of `truncateSession`
(`for i: if (!removedContentIndices.has(i)) kept.push(entries[i])`). -/
def keptFrom (removed : List Nat) (i : Nat) : List SessionEntry → List SessionEntry
  | [] => []
  | e :: l =>
      if removed.contains i then keptFrom removed (i + 1) l
      else e :: keptFrom removed (i + 1) l

/-- The re-link loop: the first entry gets `parentId = null` (the initial
`parent` argument), every later entry points at the id of its predecessor. -/
def relinkFrom (parent : Option String) : List SessionEntry → List SessionEntry
  | [] => []
  | e :: rest => { e with parentId := parent } :: relinkFrom (some e.id) rest

/-- Embedding of `truncateSession` (pure form; `newId` is the `crypto.randomUUID()` value
and `now` the `new Date().toISOString()` of the compaction marker). -/
def truncateSession (entries : List SessionEntry) (cfg : TruncateConfig)
    (newId : String) (now : String) : Option (List SessionEntry) :=
  let totalTokens := estimateTotalTokens entries
  if totalTokens ≤ cfg.maxContextTokens then none
  else
    let contentIndices := contentIndicesFrom 0 entries
    if contentIndices.length ≤ cfg.keepRecentMessages then none
    else
      let keepContentStart := contentIndices.length - cfg.keepRecentMessages
      let removedContentIndices := contentIndices.take keepContentStart
      let kept := keptFrom removedContentIndices 0 entries
      -- `entries[contentIndices[keepContentStart]]` — for keepRecentMessages = 0
      -- this indexes one past the end and the JS throws; the theorems below
      -- assume keepRecentMessages ≥ 1, where the defaults 0 never apply.
      let firstKeptContentOriginalIndex := contentIndices.getD keepContentStart 0
      let targetId := ((entries[firstKeptContentOriginalIndex]?).map SessionEntry.id).getD ""
      let insertPosition := (kept.findIdx? (fun e => e.id = targetId)).getD 0
      let compactionEntry : SessionEntry :=
        ⟨"compaction", newId,
          (if 0 < insertPosition then (kept[insertPosition - 1]?).map SessionEntry.id
           else none),
          some now,
          some ⟨"system", .str ("[Session compacted: removed " ++
            toString removedContentIndices.length ++
            " older messages to stay within context limit]")⟩⟩
      some (relinkFrom none (kept.take insertPosition ++ [compactionEntry] ++
        kept.drop insertPosition))


/-! ## Claim C6 machinery: a recursion-friendly view of the keep-loop -/

/-- Specification view of the keep-loop: drop the first `n` content entries,
keep everything else in order. -/
def dropOldContent : Nat → List SessionEntry → List SessionEntry
  | _, [] => []
  | 0, l => l
  | n + 1, e :: l =>
      if isStructuralEntry e then e :: dropOldContent (n + 1) l
      else dropOldContent n l

theorem dropOldContent_zero (l : List SessionEntry) : dropOldContent 0 l = l := by
  cases l <;> rfl

theorem mem_contentIndicesFrom_ge (l : List SessionEntry) :
    ∀ i a, a ∈ contentIndicesFrom i l → i ≤ a := by
  induction l with
  | nil => intro i a h; simp [contentIndicesFrom] at h
  | cons e rest ih =>
      intro i a h
      unfold contentIndicesFrom at h
      by_cases hs : isStructuralEntry e
      · rw [if_pos hs] at h
        have := ih (i + 1) a h
        omega
      · rw [if_neg hs] at h
        rcases List.mem_cons.mp h with rfl | h'
        · exact le_refl _
        · have := ih (i + 1) a h'
          omega

theorem keptFrom_nil_removed (l : List SessionEntry) : ∀ i, keptFrom [] i l = l := by
  induction l with
  | nil => intro i; rfl
  | cons e rest ih => intro i; simp [keptFrom, ih]

theorem keptFrom_cons_lt (R : List Nat) (a : Nat) (l : List SessionEntry) :
    ∀ i, a < i → keptFrom (a :: R) i l = keptFrom R i l := by
  induction l with
  | nil => intro i _; rfl
  | cons e rest ih =>
      intro i hai
      unfold keptFrom
      have hne : ¬(a = i) := by omega
      have hcont : (a :: R).contains i = R.contains i := by
        simp [List.contains_cons]
        intro h
        omega
      rw [hcont]
      by_cases hc : R.contains i
      · rw [if_pos hc, if_pos hc]
        exact ih (i + 1) (by omega)
      · rw [if_neg hc, if_neg hc]
        rw [ih (i + 1) (by omega)]

theorem keptFrom_take_contentIndices (l : List SessionEntry) :
    ∀ n i, keptFrom ((contentIndicesFrom i l).take n) i l = dropOldContent n l := by
  induction l with
  | nil => intro n i; cases n <;> rfl
  | cons e rest ih =>
      intro n i
      by_cases hs : isStructuralEntry e
      · have hcif : contentIndicesFrom i (e :: rest) = contentIndicesFrom (i + 1) rest := by
          simp [contentIndicesFrom, hs]
        rw [hcif]
        unfold keptFrom
        have hnotin : ((contentIndicesFrom (i + 1) rest).take n).contains i = false := by
          rw [List.contains_eq_any_beq]
          rw [List.any_eq_false]
          intro a ha
          have ha' : a ∈ contentIndicesFrom (i + 1) rest := List.mem_of_mem_take ha
          have := mem_contentIndicesFrom_ge rest (i + 1) a ha'
          simp only [beq_iff_eq]
          omega
        rw [hnotin]
        simp only [Bool.false_eq_true, if_false]
        rw [ih n (i + 1)]
        cases n with
        | zero => simp [dropOldContent, hs, dropOldContent_zero]
        | succ m => simp [dropOldContent, hs]
      · have hcif : contentIndicesFrom i (e :: rest) = i :: contentIndicesFrom (i + 1) rest := by
          simp [contentIndicesFrom, hs]
        rw [hcif]
        cases n with
        | zero =>
            simp only [List.take_zero]
            rw [keptFrom_nil_removed]
            simp [dropOldContent]
        | succ m =>
            simp only [List.take_succ_cons]
            unfold keptFrom
            have hcont : (i :: (contentIndicesFrom (i + 1) rest).take m).contains i = true := by
              simp [List.contains_cons]
            rw [hcont]
            simp only [if_true]
            rw [keptFrom_cons_lt _ _ _ (i + 1) (by omega)]
            rw [ih m (i + 1)]
            simp [dropOldContent, hs]

/-! ### Properties of dropOldContent -/

theorem dropOldContent_sublist (n : Nat) (l : List SessionEntry) :
    (dropOldContent n l).Sublist l := by
  induction l generalizing n with
  | nil => cases n <;> simp [dropOldContent]
  | cons e rest ih =>
      cases n with
      | zero => simp [dropOldContent]
      | succ m =>
          by_cases hs : isStructuralEntry e
          · simpa [dropOldContent, hs] using (ih (m + 1)).cons₂ e
          · simpa [dropOldContent, hs] using (ih m).cons e

theorem dropOldContent_filter_keep (p : SessionEntry → Bool)
    (hp : ∀ e, p e = true → isStructuralEntry e = true) (n : Nat) (l : List SessionEntry) :
    (dropOldContent n l).filter p = l.filter p := by
  induction l generalizing n with
  | nil => cases n <;> rfl
  | cons e rest ih =>
      cases n with
      | zero => rfl
      | succ m =>
          by_cases hs : isStructuralEntry e
          · simp only [dropOldContent, hs, if_true]
            simp only [List.filter_cons]
            rw [ih (m + 1)]
          · have hpe : p e = false := by
              cases hpe : p e with
              | false => rfl
              | true => exact absurd (hp e hpe) (by simp [hs])
            simp only [dropOldContent, hs, Bool.false_eq_true, if_false]
            simp only [List.filter_cons, hpe, Bool.false_eq_true, if_false]
            exact ih m

theorem dropOldContent_filter_content (n : Nat) (l : List SessionEntry) :
    (dropOldContent n l).filter (fun e => !isStructuralEntry e) =
      (l.filter (fun e => !isStructuralEntry e)).drop n := by
  induction l generalizing n with
  | nil => cases n <;> rfl
  | cons e rest ih =>
      cases n with
      | zero => rfl
      | succ m =>
          by_cases hs : isStructuralEntry e
          · simp only [dropOldContent, hs, if_true, List.filter_cons, Bool.not_true,
              Bool.false_eq_true, if_false]
            exact ih (m + 1)
          · simp only [dropOldContent, hs, Bool.false_eq_true, if_false, List.filter_cons,
              Bool.not_false, if_true, List.drop_succ_cons]
            exact ih m

theorem contentIndicesFrom_length (l : List SessionEntry) :
    ∀ i, (contentIndicesFrom i l).length = (l.filter (fun e => !isStructuralEntry e)).length := by
  induction l with
  | nil => intro i; rfl
  | cons e rest ih =>
      intro i
      by_cases hs : isStructuralEntry e
      · simp [contentIndicesFrom, hs, List.filter_cons, ih]
      · simp [contentIndicesFrom, hs, List.filter_cons, ih]

/-- The `j`-th collected content index points at the `j`-th content entry. -/
theorem contentIndicesFrom_get (l : List SessionEntry) :
    ∀ i j, j < (contentIndicesFrom i l).length →
      ∃ k, (contentIndicesFrom i l)[j]? = some k ∧ i ≤ k ∧
        l[k - i]? = (l.filter (fun e => !isStructuralEntry e))[j]? := by
  induction l with
  | nil => intro i j h; simp [contentIndicesFrom] at h
  | cons e rest ih =>
      intro i j h
      by_cases hs : isStructuralEntry e
      · have hcif : contentIndicesFrom i (e :: rest) = contentIndicesFrom (i + 1) rest := by
          simp [contentIndicesFrom, hs]
        rw [hcif] at h ⊢
        obtain ⟨k, hk, hik, hget⟩ := ih (i + 1) j h
        refine ⟨k, hk, by omega, ?_⟩
        have hki : k - i = (k - (i + 1)) + 1 := by omega
        rw [hki]
        simp only [List.getElem?_cons_succ]
        rw [hget]
        simp [List.filter_cons, hs]
      · have hcif : contentIndicesFrom i (e :: rest) = i :: contentIndicesFrom (i + 1) rest := by
          simp [contentIndicesFrom, hs]
        rw [hcif] at h ⊢
        cases j with
        | zero =>
            refine ⟨i, by simp, le_refl _, ?_⟩
            simp [List.filter_cons, hs]
        | succ j' =>
            simp only [List.length_cons] at h
            obtain ⟨k, hk, hik, hget⟩ := ih (i + 1) j' (by omega)
            refine ⟨k, by simpa using hk, by omega, ?_⟩
            have hki : k - i = (k - (i + 1)) + 1 := by omega
            rw [hki]
            simp only [List.getElem?_cons_succ]
            rw [hget]
            simp [List.filter_cons, hs]

/-! ### Properties of the re-link pass -/

def entryView (e : SessionEntry) : String × String × Option SessionMessage :=
  (e.id, e.type, e.message)

theorem relinkFrom_length (l : List SessionEntry) :
    ∀ p, (relinkFrom p l).length = l.length := by
  induction l with
  | nil => intro p; rfl
  | cons e rest ih => intro p; simp [relinkFrom, ih]

theorem relinkFrom_get_view (l : List SessionEntry) :
    ∀ (p : Option String) (i : Nat),
      ((relinkFrom p l)[i]?).map entryView = (l[i]?).map entryView := by
  induction l with
  | nil => intro p i; rfl
  | cons e rest ih =>
      intro p i
      cases i with
      | zero => simp [relinkFrom, entryView]
      | succ i' =>
          simp only [relinkFrom, List.getElem?_cons_succ]
          exact ih (some e.id) i'

theorem relinkFrom_map_filter_view (pt : String → Bool) (l : List SessionEntry) :
    ∀ p, ((relinkFrom p l).filter (fun e => pt e.type)).map entryView =
      (l.filter (fun e => pt e.type)).map entryView := by
  induction l with
  | nil => intro p; rfl
  | cons e rest ih =>
      intro p
      simp only [relinkFrom, List.filter_cons]
      by_cases hp : pt e.type
      · simp only [hp, if_true, List.map_cons, entryView]
        rw [ih (some e.id)]
      · simp only [hp, Bool.false_eq_true, if_false]
        exact ih (some e.id)

theorem relinkFrom_head_parent (l : List SessionEntry) (p : Option String)
    (e : SessionEntry) (h : (relinkFrom p l).head? = some e) : e.parentId = p := by
  cases l with
  | nil => simp [relinkFrom] at h
  | cons a rest =>
      simp only [relinkFrom, List.head?_cons, Option.some_inj] at h
      rw [← h]

theorem relinkFrom_chain (l : List SessionEntry) :
    ∀ p i, i + 1 < (relinkFrom p l).length →
      ((relinkFrom p l).getD (i + 1) blankEntry).parentId =
        some (((relinkFrom p l).getD i blankEntry).id) := by
  induction l with
  | nil => intro p i h; simp [relinkFrom] at h
  | cons e rest ih =>
      intro p i h
      cases i with
      | zero =>
          simp only [relinkFrom, List.length_cons] at h
          cases hr : rest with
          | nil => rw [hr] at h; simp [relinkFrom] at h
          | cons b tail =>
              simp [relinkFrom, List.getD]
      | succ i' =>
          have hlen : (relinkFrom (some e.id) rest).length = rest.length :=
            relinkFrom_length rest _
          simp only [relinkFrom, List.length_cons, hlen] at h
          have h' : i' + 1 < (relinkFrom (some e.id) rest).length := by
            rw [hlen]; omega
          have := ih (some e.id) i' h'
          simpa [relinkFrom, List.getD] using this

/-! ### findIdx? over a structural prefix -/

theorem findIdx?_append_first_aux (p : SessionEntry → Bool) (a : SessionEntry)
    (t : List SessionEntry) (ha : p a = true) (s : List SessionEntry) :
    ∀ start, (∀ x ∈ s, p x = false) →
      List.findIdx? p (s ++ a :: t) start = some (start + s.length) := by
  induction s with
  | nil =>
      intro start _
      simp [List.findIdx?_cons, ha]
  | cons x s' ih =>
      intro start hs
      have hx : p x = false := hs x (by simp)
      simp only [List.cons_append, List.findIdx?_cons, hx, Bool.false_eq_true, if_false]
      rw [ih (start + 1) (fun y hy => hs y (by simp [hy]))]
      simp only [List.length_cons, Option.some_inj]
      omega

theorem findIdx?_append_first (p : SessionEntry → Bool) (s : List SessionEntry)
    (a : SessionEntry) (t : List SessionEntry)
    (hs : ∀ x ∈ s, p x = false) (ha : p a = true) :
    (s ++ a :: t).findIdx? p = some s.length := by
  have := findIdx?_append_first_aux p a t ha s 0 hs
  simpa using this

theorem relinkFrom_exists_view_of_mem (l : List SessionEntry) (p : Option String)
    (e : SessionEntry) (he : e ∈ l) :
    ∃ e2 ∈ relinkFrom p l, entryView e2 = entryView e := by
  obtain ⟨i, hi, hgeti⟩ := List.getElem_of_mem he
  have h1 : l[i]? = some e := by rw [List.getElem?_eq_getElem hi, hgeti]
  have h2 := relinkFrom_get_view l p i
  rw [h1] at h2
  cases hg : (relinkFrom p l)[i]? with
  | none => rw [hg] at h2; simp at h2
  | some e2 =>
      rw [hg] at h2
      refine ⟨e2, List.getElem?_mem hg, ?_⟩
      simpa using h2

theorem relinkFrom_exists_view_of_mem_rev (l : List SessionEntry) (p : Option String)
    (e2 : SessionEntry) (he : e2 ∈ relinkFrom p l) :
    ∃ e ∈ l, entryView e = entryView e2 := by
  obtain ⟨i, hi, hgeti⟩ := List.getElem_of_mem he
  have h1 : (relinkFrom p l)[i]? = some e2 := by rw [List.getElem?_eq_getElem hi, hgeti]
  have h2 := relinkFrom_get_view l p i
  rw [h1] at h2
  cases hg : l[i]? with
  | none => rw [hg] at h2; simp at h2
  | some e =>
      rw [hg] at h2
      refine ⟨e, List.getElem?_mem hg, ?_⟩
      simpa using h2.symm

theorem mem_take_getElem? {α : Type} (l : List α) (j : Nat) (e : α) (h : e ∈ l.take j) :
    ∃ i, i < j ∧ l[i]? = some e := by
  obtain ⟨i, hi, hget⟩ := List.getElem_of_mem h
  have hij : i < j := lt_of_lt_of_le hi (List.length_take_le j l)
  refine ⟨i, hij, ?_⟩
  rw [← List.getElem?_take_of_lt hij]
  rw [List.getElem?_eq_getElem hi, hget]

theorem entryView_eq_iff (a b : SessionEntry) :
    entryView a = entryView b ↔ (a.id = b.id ∧ a.type = b.type ∧ a.message = b.message) := by
  simp [entryView, Prod.ext_iff]

theorem isStructuralEntry_congr_view (a b : SessionEntry) (h : entryView a = entryView b) :
    isStructuralEntry a = isStructuralEntry b := by
  have := ((entryView_eq_iff a b).mp h).2.1
  simp [isStructuralEntry, this]

theorem relinkFrom_filter_structural_view (l : List SessionEntry) (p : Option String) :
    ((relinkFrom p l).filter (fun e => !isStructuralEntry e)).map entryView =
      (l.filter (fun e => !isStructuralEntry e)).map entryView :=
  relinkFrom_map_filter_view (fun t => !(STRUCTURAL_TYPES.contains t)) l p

theorem relinkFrom_filter_compaction_view (l : List SessionEntry) (p : Option String) :
    ((relinkFrom p l).filter (fun e => e.type == "compaction")).map entryView =
      (l.filter (fun e => e.type == "compaction")).map entryView :=
  relinkFrom_map_filter_view (fun t => t == "compaction") l p

/-- C6 (confirmed). For a session log with distinct entry ids, a fresh
compaction id, and a positive keep-recent count, whenever `truncateSession`
returns a rewritten list: the parent chain is linear from a `null` root; every
structural entry of the input survives (same id, type and message) and every
structural entry of the output is either the new compaction marker or from the
input; the content entries of the output are exactly the `keepRecent` most
recent content entries of the input, in order; and exactly one new
`compaction` entry of role `system` is inserted at the position of the first
kept content entry. -/
theorem truncateSession_structure
    (entries : List SessionEntry) (cfg : TruncateConfig) (newId now : String)
    (result : List SessionEntry)
    (hK : 1 ≤ cfg.keepRecentMessages)
    (hnodup : (entries.map SessionEntry.id).Nodup)
    (hres : truncateSession entries cfg newId now = some result) :
    0 < result.length ∧
    (result.getD 0 blankEntry).parentId = none ∧
    (∀ i : Nat, i + 1 < result.length →
      (result.getD (i + 1) blankEntry).parentId = some ((result.getD i blankEntry).id)) ∧
    (∀ e ∈ entries, isStructuralEntry e = true →
      ∃ e2 ∈ result, e2.id = e.id ∧ e2.type = e.type ∧ e2.message = e.message) ∧
    (∀ e2 ∈ result, isStructuralEntry e2 = true →
      e2.id = newId ∨ ∃ e ∈ entries, e.id = e2.id ∧ e.type = e2.type) ∧
    ((result.filter (fun e => !isStructuralEntry e)).map entryView =
      ((entries.filter (fun e => !isStructuralEntry e)).drop
        ((entries.filter (fun e => !isStructuralEntry e)).length -
          cfg.keepRecentMessages)).map entryView) ∧
    ((result.filter (fun e => !isStructuralEntry e)).length = cfg.keepRecentMessages) ∧
    ((result.filter (fun e => e.type == "compaction")).length =
      (entries.filter (fun e => e.type == "compaction")).length + 1) ∧
    (∃ j c, result[j]? = some c ∧ c.type = "compaction" ∧ c.id = newId ∧
      (c.message.map SessionMessage.role) = some "system" ∧
      (∀ e ∈ result.take j, isStructuralEntry e = true) ∧
      (∃ t, result[j + 1]? = some t ∧ isStructuralEntry t = false)) := by
  simp only [truncateSession] at hres
  split at hres
  · exact Option.noConfusion hres
  rename_i h1
  split at hres
  · exact Option.noConfusion hres
  rename_i h2
  -- abbreviations
  have hLc : (contentIndicesFrom 0 entries).length =
      (entries.filter (fun e => !isStructuralEntry e)).length :=
    contentIndicesFrom_length entries 0
  have hKlt : cfg.keepRecentMessages <
      (entries.filter (fun e => !isStructuralEntry e)).length := by omega
  have hnCI : (contentIndicesFrom 0 entries).length - cfg.keepRecentMessages <
      (contentIndicesFrom 0 entries).length := by omega
  -- the keep-loop is dropOldContent
  rw [keptFrom_take_contentIndices entries
    ((contentIndicesFrom 0 entries).length - cfg.keepRecentMessages) 0] at hres
  -- the target entry: the first kept content entry
  obtain ⟨k, hk, -, hkget⟩ := contentIndicesFrom_get entries 0
    ((contentIndicesFrom 0 entries).length - cfg.keepRecentMessages) hnCI
  have hCFn : ((entries.filter (fun e => !isStructuralEntry e))[
      (contentIndicesFrom 0 entries).length - cfg.keepRecentMessages]?).isSome := by
    rw [List.getElem?_eq_getElem (by omega)]
    rfl
  obtain ⟨target, htarget⟩ := Option.isSome_iff_exists.mp hCFn
  have hentk : entries[k]? = some target := by
    have hzero : k - 0 = k := by omega
    rw [← hzero, hkget, htarget]
  have hgetD : (contentIndicesFrom 0 entries).getD
      ((contentIndicesFrom 0 entries).length - cfg.keepRecentMessages) 0 = k := by
    rw [List.getD_eq_getElem?_getD, hk]
    rfl
  rw [hgetD, hentk] at hres
  simp only [Option.map_some', Option.getD_some] at hres
  -- decompose the kept list around the target
  have hkc : (dropOldContent ((contentIndicesFrom 0 entries).length - cfg.keepRecentMessages)
      entries).filter (fun e => !isStructuralEntry e) =
      (entries.filter (fun e => !isStructuralEntry e)).drop
        ((contentIndicesFrom 0 entries).length - cfg.keepRecentMessages) :=
    dropOldContent_filter_content _ entries
  have hconsform : (dropOldContent ((contentIndicesFrom 0 entries).length -
      cfg.keepRecentMessages) entries).filter (fun e => !isStructuralEntry e) =
      target :: ((entries.filter (fun e => !isStructuralEntry e)).drop
        ((contentIndicesFrom 0 entries).length - cfg.keepRecentMessages)).tail := by
    rw [hkc]
    have hhead : ((entries.filter (fun e => !isStructuralEntry e)).drop
        ((contentIndicesFrom 0 entries).length - cfg.keepRecentMessages))[0]? =
        some target := by
      rw [List.getElem?_drop]
      simpa using htarget
    cases hd : (entries.filter (fun e => !isStructuralEntry e)).drop
        ((contentIndicesFrom 0 entries).length - cfg.keepRecentMessages) with
    | nil => rw [hd] at hhead; simp at hhead
    | cons a tlx =>
        rw [hd] at hhead
        simp only [List.getElem?_cons_zero, Option.some_inj] at hhead
        rw [hhead]
        rfl
  rw [List.filter_eq_cons_iff] at hconsform
  obtain ⟨S, rest, hkeq, hSnc, htc, -⟩ := hconsform
  have hSst : ∀ x ∈ S, isStructuralEntry x = true := by
    intro x hx
    have hh := hSnc x hx
    revert hh
    cases isStructuralEntry x <;> simp
  have hTct : isStructuralEntry target = false := by
    revert htc
    cases isStructuralEntry target <;> simp
  -- kept is a deduplicated sublist
  have hksub := dropOldContent_sublist
    ((contentIndicesFrom 0 entries).length - cfg.keepRecentMessages) entries
  have hknodup : ((dropOldContent ((contentIndicesFrom 0 entries).length -
      cfg.keepRecentMessages) entries).map SessionEntry.id).Nodup :=
    hnodup.sublist (hksub.map _)
  -- the insert position is the length of the structural prefix
  have hfind : (dropOldContent ((contentIndicesFrom 0 entries).length -
      cfg.keepRecentMessages) entries).findIdx?
      (fun e => decide (e.id = target.id)) = some S.length := by
    rw [hkeq]
    apply findIdx?_append_first
    · intro x hx
      apply decide_eq_false
      intro hxid
      have hx1 : x.id ∈ S.map SessionEntry.id := List.mem_map_of_mem _ hx
      have hx2 : target.id ∈ (target :: rest).map SessionEntry.id := by simp
      have hnd : (S.map SessionEntry.id ++ (target :: rest).map SessionEntry.id).Nodup := by
        rw [hkeq] at hknodup
        simpa using hknodup
      exact (List.disjoint_of_nodup_append hnd) (hxid ▸ hx1) hx2
    · simp
  rw [hfind] at hres
  simp only [Option.getD_some] at hres
  rw [hkeq, List.take_left, List.drop_left] at hres
  -- name the compaction entry without spelling out its parent field
  obtain ⟨comp, hWeq, hcompty, hcompid, hcomprole⟩ :
      ∃ c : SessionEntry, result = relinkFrom none (S ++ [c] ++ target :: rest) ∧
        c.type = "compaction" ∧ c.id = newId ∧
        (c.message.map SessionMessage.role) = some "system" :=
    ⟨_, (Option.some.inj hres).symm, rfl, rfl, rfl⟩
  have hW2 : result = relinkFrom none (S ++ comp :: target :: rest) := by
    rw [hWeq]
    congr 1
    simp
  clear hres hWeq
  have hcompst : isStructuralEntry comp = true := by
    simp [isStructuralEntry, hcompty, STRUCTURAL_TYPES]
  -- shared facts
  have hkentries : ∀ x, x ∈ S ++ target :: rest → x ∈ entries := by
    intro x hx
    rw [← hkeq] at hx
    exact hksub.subset hx
  have hfilterW : (S ++ comp :: target :: rest).filter (fun e => !isStructuralEntry e) =
      (entries.filter (fun e => !isStructuralEntry e)).drop
        ((contentIndicesFrom 0 entries).length - cfg.keepRecentMessages) := by
    rw [hkeq] at hkc
    rw [List.filter_append] at hkc ⊢
    have hSf : S.filter (fun e => !isStructuralEntry e) = [] := by
      rw [List.filter_eq_nil_iff]
      intro x hx
      simp [hSst x hx]
    rw [hSf] at hkc ⊢
    simp only [List.nil_append] at hkc ⊢
    rw [List.filter_cons_of_neg (by simp [hcompst])]
    exact hkc
  refine ⟨?_, ?_, ?_, ?_, ?_, ?_, ?_, ?_, ?_⟩
  · -- 0 < result.length
    rw [hW2, relinkFrom_length]
    simp
  · -- head parentId is none
    obtain ⟨w, ws, hw⟩ : ∃ w ws, S ++ comp :: target :: rest = w :: ws := by
      cases S with
      | nil => exact ⟨comp, target :: rest, rfl⟩
      | cons s ss => exact ⟨s, ss ++ comp :: target :: rest, rfl⟩
    rw [hW2, hw]
    simp [relinkFrom, List.getD]
  · -- linear chain
    intro i hlen
    rw [hW2] at hlen ⊢
    exact relinkFrom_chain _ none i hlen
  · -- structural entries of the input survive
    intro e he hst
    have hef : e ∈ (dropOldContent ((contentIndicesFrom 0 entries).length -
        cfg.keepRecentMessages) entries).filter (fun x => isStructuralEntry x) := by
      rw [dropOldContent_filter_keep (fun x => isStructuralEntry x) (fun _ h => h)]
      exact List.mem_filter.mpr ⟨he, hst⟩
    have hek := List.mem_of_mem_filter hef
    rw [hkeq] at hek
    have heW : e ∈ S ++ comp :: target :: rest := by
      rcases List.mem_append.mp hek with h | h
      · exact List.mem_append.mpr (Or.inl h)
      · exact List.mem_append.mpr (Or.inr (List.mem_cons_of_mem comp h))
    obtain ⟨e2, he2, hview⟩ := relinkFrom_exists_view_of_mem _ none e heW
    rw [← hW2] at he2
    obtain ⟨hid, hty, hmsg⟩ := (entryView_eq_iff e2 e).mp hview
    exact ⟨e2, he2, hid, hty, hmsg⟩
  · -- structural entries of the output come from the input or are the marker
    intro e2 he2 _
    rw [hW2] at he2
    obtain ⟨x, hx, hview⟩ := relinkFrom_exists_view_of_mem_rev _ none e2 he2
    obtain ⟨hid, hty, -⟩ := (entryView_eq_iff x e2).mp hview
    rcases List.mem_append.mp hx with hxS | hxC
    · exact Or.inr ⟨x, hkentries x (List.mem_append.mpr (Or.inl hxS)), hid, hty⟩
    · rcases List.mem_cons.mp hxC with rfl | hxTR
      · exact Or.inl (by rw [← hid, hcompid])
      · exact Or.inr ⟨x, hkentries x (List.mem_append.mpr (Or.inr hxTR)), hid, hty⟩
  · -- content entries are the most recent ones, in order
    rw [hW2, relinkFrom_filter_structural_view, hfilterW]
    congr 2
    omega
  · -- exactly keepRecent content entries
    rw [hW2]
    have e2 := congrArg List.length
      (relinkFrom_filter_structural_view (S ++ comp :: target :: rest) none)
    simp only [List.length_map] at e2
    rw [e2, hfilterW, List.length_drop]
    omega
  · -- exactly one new compaction marker
    rw [hW2]
    have hv := congrArg List.length
      (relinkFrom_filter_compaction_view (S ++ comp :: target :: rest) none)
    simp only [List.length_map] at hv
    rw [hv]
    have hkcount : (S ++ target :: rest).filter (fun e => e.type == "compaction") =
        entries.filter (fun e => e.type == "compaction") := by
      rw [← hkeq]
      apply dropOldContent_filter_keep
      intro e hpe
      have hpe2 : e.type = "compaction" := by simpa using hpe
      simp [isStructuralEntry, hpe2, STRUCTURAL_TYPES]
    rw [List.filter_append, List.filter_cons_of_pos (by simp [hcompty])]
    rw [List.filter_append] at hkcount
    simp only [List.length_append, List.length_cons]
    have hkc2 := congrArg List.length hkcount
    simp only [List.length_append] at hkc2
    omega
  · -- the marker sits at the position of the first kept content entry
    refine ⟨S.length, ?_⟩
    have hWj : (S ++ comp :: target :: rest)[S.length]? = some comp := by
      rw [List.getElem?_append_right (le_refl S.length)]
      simp
    have hj := relinkFrom_get_view (S ++ comp :: target :: rest) none S.length
    rw [hWj] at hj
    rw [← hW2] at hj
    cases hc : result[S.length]? with
    | none => rw [hc] at hj; simp at hj
    | some c =>
        rw [hc] at hj
        simp only [Option.map_some'] at hj
        obtain ⟨hcid, hcty, hcmsg⟩ := (entryView_eq_iff c comp).mp (Option.some.inj hj)
        refine ⟨c, rfl, by rw [hcty, hcompty], by rw [hcid, hcompid],
          by rw [hcmsg, hcomprole], ?_, ?_⟩
        · intro e he
          obtain ⟨i, hij, hie⟩ := mem_take_getElem? result S.length e he
          have hv := relinkFrom_get_view (S ++ comp :: target :: rest) none i
          rw [← hW2] at hv
          rw [hie] at hv
          have hWi : (S ++ comp :: target :: rest)[i]? = S[i]? := by
            rw [List.getElem?_append, if_pos hij]
          rw [hWi] at hv
          cases hsx : S[i]? with
          | none => rw [hsx] at hv; simp at hv
          | some x =>
              rw [hsx] at hv
              simp only [Option.map_some', Option.some_inj] at hv
              rw [isStructuralEntry_congr_view e x hv]
              exact hSst x (List.getElem?_mem hsx)
        · have hWt : (S ++ comp :: target :: rest)[S.length + 1]? = some target := by
            rw [List.getElem?_append_right (by omega)]
            have hidx : S.length + 1 - S.length = 1 := by omega
            rw [hidx]
            simp
          have hv := relinkFrom_get_view (S ++ comp :: target :: rest) none (S.length + 1)
          rw [← hW2] at hv
          rw [hWt] at hv
          cases ht : result[S.length + 1]? with
          | none => rw [ht] at hv; simp at hv
          | some t =>
              rw [ht] at hv
              simp only [Option.map_some', Option.some_inj] at hv
              refine ⟨t, rfl, ?_⟩
              rw [isStructuralEntry_congr_view t target hv]
              exact hTct

/-- C6, concrete instances for the witness: one structural entry and three
content entries, ceiling 100, keep-recent 1. -/
def cE0 : SessionEntry := ⟨"session", "s1", none, none, none⟩

def cE1 : SessionEntry := ⟨"message", "m1", some "s1", none, some ⟨"user", .str "one"⟩⟩

def cE2 : SessionEntry := ⟨"message", "m2", some "m1", none, some ⟨"assistant", .str "two"⟩⟩

def cE3 : SessionEntry := ⟨"message", "m3", some "m2", none, some ⟨"user", .str "three"⟩⟩

def cEntries : List SessionEntry := [cE0, cE1, cE2, cE3]

def cResult : List SessionEntry :=
  [⟨"session", "s1", none, none, none⟩,
   ⟨"compaction", "cid", some "s1", some "now",
     some ⟨"system",
       .str "[Session compacted: removed 2 older messages to stay within context limit]"⟩⟩,
   ⟨"message", "m3", some "cid", none, some ⟨"user", .str "three"⟩⟩]


/-- C6, witness at a concrete input. -/
theorem truncateSession_structure_witness :
    0 < cResult.length ∧
    (cResult.getD 0 blankEntry).parentId = none ∧
    (∀ i : Nat, i + 1 < cResult.length →
      (cResult.getD (i + 1) blankEntry).parentId = some ((cResult.getD i blankEntry).id)) ∧
    (∀ e ∈ cEntries, isStructuralEntry e = true →
      ∃ e2 ∈ cResult, e2.id = e.id ∧ e2.type = e.type ∧ e2.message = e.message) ∧
    (∀ e2 ∈ cResult, isStructuralEntry e2 = true →
      e2.id = "cid" ∨ ∃ e ∈ cEntries, e.id = e2.id ∧ e.type = e2.type) ∧
    ((cResult.filter (fun e => !isStructuralEntry e)).map entryView =
      ((cEntries.filter (fun e => !isStructuralEntry e)).drop
        ((cEntries.filter (fun e => !isStructuralEntry e)).length - 1)).map entryView) ∧
    ((cResult.filter (fun e => !isStructuralEntry e)).length = 1) ∧
    ((cResult.filter (fun e => e.type == "compaction")).length =
      (cEntries.filter (fun e => e.type == "compaction")).length + 1) ∧
    (∃ j c, cResult[j]? = some c ∧ c.type = "compaction" ∧ c.id = "cid" ∧
      (c.message.map SessionMessage.role) = some "system" ∧
      (∀ e ∈ cResult.take j, isStructuralEntry e = true) ∧
      (∃ t, cResult[j + 1]? = some t ∧ isStructuralEntry t = false)) :=
  truncateSession_structure cEntries ⟨100, 1⟩ "cid" "now" cResult
    (by decide) (by decide) (by decide)

/-! ## Claim C7: the concrete truncation scenario -/

/-- The scenario-6 log of the spec: one `session` entry, one `model_change` entry,
and 30 content entries of 2000 characters (≈500 estimated tokens) each; the
2000 characters are carried as 200 ten-character text blocks so that the
example evaluates without deep recursion. -/
def c7Content : List SessionEntry :=
  (List.range 30).map (fun i =>
    ⟨"message", "m" ++ toString i, none, none,
      some ⟨"user", .blocks (List.replicate 200 (some "xxxxxxxxxx"))⟩⟩)

def c7Entries : List SessionEntry :=
  ⟨"session", "s1", none, none, none⟩ ::
  ⟨"model_change", "mc1", none, none, none⟩ :: c7Content

set_option maxRecDepth 100000 in
/-- C7, counterexample to the claim as stated: in the scenario the rewritten
total estimate of the rewritten log is 2650 tokens — not below the 1000-token ceiling (the
five kept ~500-token entries alone exceed it). -/
theorem truncateSession_scenario_counterexample :
    estimateTotalTokens ((truncateSession c7Entries ⟨1000, 5⟩ "c-id" "now").getD []) = 2650 ∧
    ¬(estimateTotalTokens ((truncateSession c7Entries ⟨1000, 5⟩ "c-id" "now").getD [])
        < 1000) := by
  constructor
  · decide
  · decide

set_option maxRecDepth 100000 in
/-- C7 (corrected): in the scenario, truncation brings the total estimate from
15100 down to 2650 — strictly below the original, but still above the
1000-token ceiling. -/
theorem truncateSession_scenario_estimate :
    estimateTotalTokens c7Entries = 15100 ∧
    estimateTotalTokens ((truncateSession c7Entries ⟨1000, 5⟩ "c-id" "now").getD []) = 2650 ∧
    2650 < 15100 ∧ ¬(2650 < 1000) := by
  refine ⟨by decide, by decide, by decide, by decide⟩

/-! ## model-switcher.ts — switchToLocalModel (claim C9) -/

/-- Embedding of `interface SwitcherState`. -/
structure SwitcherState where
  mode : String
  originalModel : String
  switchedAt : String
  switchedModelId : String
  deriving Repr, DecidableEq

/-- The slice of the host config the switcher touches:
`agents.defaults.model.primary` and the keys of `agents.defaults.models`
(unrelated fields are preserved unchanged by the code and are not
modelled). -/
structure OpenClawConfig where
  primary : Option String
  modelKeys : List String
  deriving Repr, DecidableEq

/-- Embedding of `resolveCurrentModel`. -/
def resolveCurrentModel (config : OpenClawConfig) : String :=
  config.primary.getD "unknown"

/-- Embedding of `setActiveModel`: set the primary pointer and ensure a model entry
exists. -/
def setActiveModel (config : OpenClawConfig) (modelId : String) : OpenClawConfig :=
  ⟨some modelId,
    if config.modelKeys.contains modelId then config.modelKeys
    else config.modelKeys ++ [modelId]⟩

/-- The observable side effects of a `switchToLocalModel` run, in order.
Reading the switcher-state file itself is the input of the function (`existing`),
and the Ollama HTTP probes are inputs `ollamaUp`/`modelAvailable`; the file
writes, the host-config read and the restart command are recorded here. -/
inductive SwEffect where
  | readHostConfig
  | writeHostConfig (primary : Option String) (modelKeys : List String)
  | writeSwitcherState (st : SwitcherState)
  | restartHost
  deriving Repr, DecidableEq

/-- Embedding of `switchToLocalModel` (pure form): returns the boolean result and the list
of performed side effects. -/
def switchToLocalModel (existing : Option SwitcherState) (ollamaUp : Bool)
    (modelAvailable : String → Bool) (hostConfig : OpenClawConfig)
    (taskType : TaskType) (localModels : TaskType → String) (now : String) :
    Bool × List SwEffect :=
  if (existing.map SwitcherState.mode) = some "local" then (false, [])
  else if ollamaUp = false then (false, [])
  else
    let target0 := localModels taskType
    let targetRes : Option String :=
      if modelAvailable target0 then some target0
      else
        let general := localModels TaskType.general
        if modelAvailable general then some general else none
    match targetRes with
    | none => (false, [])
    | some target =>
        let originalModel := resolveCurrentModel hostConfig
        let ollamaModelId := "ollama/" ++ target
        let updated := setActiveModel hostConfig ollamaModelId
        (true,
          [.readHostConfig, .writeHostConfig updated.primary updated.modelKeys,
           .writeSwitcherState ⟨"local", originalModel, now, ollamaModelId⟩,
           .restartHost])

/-- C9 (confirmed). When the stored switcher-state mode is `"local"`,
`switchToLocalModel` is a no-op: it returns `false` and performs no side
effect — no host-config read or write, no switcher-state write, no restart
command — whatever the probe results, host config, task or clock say. -/
theorem switchToLocalModel_idempotent (st : SwitcherState) (ollamaUp : Bool)
    (modelAvailable : String → Bool) (hostConfig : OpenClawConfig)
    (taskType : TaskType) (localModels : TaskType → String) (now : String)
    (hmode : st.mode = "local") :
    switchToLocalModel (some st) ollamaUp modelAvailable hostConfig taskType
      localModels now = (false, []) := by
  simp [switchToLocalModel, hmode]

/-- C9, witness at a concrete input. -/
theorem switchToLocalModel_idempotent_witness :
    switchToLocalModel (some ⟨"local", "anthropic/claude-sonnet-4", "2026-02-01", "ollama/qwen3:8b"⟩)
      true (fun _ => true) ⟨some "ollama/qwen3:8b", []⟩ .general
      (fun _ => "qwen3:8b") "2026-02-02" = (false, []) :=
  switchToLocalModel_idempotent ⟨"local", "anthropic/claude-sonnet-4", "2026-02-01", "ollama/qwen3:8b"⟩
    true (fun _ => true) ⟨some "ollama/qwen3:8b", []⟩ .general (fun _ => "qwen3:8b")
    "2026-02-02" rfl
